import Mathlib

/-!
# bblengthmix: a basic-block length profiler

A shallow embedding of `src/bblengthmix/bblengthmix.cpp` and theorems about it.

Conventions of the embedding.

* `UINT32` and `UINT64` values are natural numbers; every increment and
  addition the source performs on them is followed by an explicit `% 2 ^ 32`
  or `% 2 ^ 64`.  `INT32` values are integers.
* A C++ array is a list of its elements.  C++ leaves an access outside an
  array undefined; here such a read yields `0` and such a write leaves the
  list as it is.  The index of the terminator write of `RecordLength` is
  available as the result of `RecordLength_loop`, so that its bound can be
  stated on its own.
* Uninitialised `UINT16` storage holds `none`.
* `exit(1)` and a failed `ASSERT`/`ASSERTX` end the process: the functions
  that can reach one return `Except Fatal _`.
* The host framework is an event source: thread starts, trace discoveries and
  executions of instrumented blocks.  The process state is passed explicitly.
* The report is a list of lines.  Its percent column, a `double` in the
  source, is taken over the rationals and has no value when the divisor is 0.
-/

namespace BblLengthMix

/-! ## Machine integers and constants -/

/-- Number of values of a `UINT32`. -/
def UINT32_MOD : Nat := 2 ^ 32

/-- Number of values of a `COUNTER` (`typedef UINT64 COUNTER`); a counter is a
natural number that the operations keep below this. -/
def COUNTER_MOD : Nat := 2 ^ 64

/-- Source constant `const INT32 MAX_BBL_SIZE = 1000`. -/
def MAX_BBL_SIZE : Nat := 1000

/-- Conversion of a `UINT32` value to `INT32` (two's complement), as in the
`return count` of `RecordLength`. -/
def toINT32 (u : Nat) : Int :=
  if u % UINT32_MOD < 2 ^ 31 then ((u % UINT32_MOD : Nat) : Int)
  else ((u % UINT32_MOD : Nat) : Int) - ((UINT32_MOD : Nat) : Int)

/-! ## Data model -/

/-- Source type `STATS`: one counter per block length. -/
structure STATS where
  bblength : List Nat
deriving DecidableEq, Repr

/-- Source class `BBLSTATS`: the descriptor of one instrumented block. -/
structure BBLSTATS where
  _stats : List (Option Nat)
  _size : Int
  _counter : List Nat
deriving DecidableEq, Repr

/-- Constructor `BBLSTATS(stats, size)`: a counter array of `MaxNumThreads`
slots, cleared by `memset`. -/
def BBLSTATS.create (MaxNumThreads : Nat) (stats : List (Option Nat)) (size : Int) : BBLSTATS :=
  { _stats := stats, _size := size, _counter := List.replicate MaxNumThreads 0 }

/-- An instruction of the instrumented program; the profiler never looks inside. -/
structure INS where
  address : Nat
deriving DecidableEq, Repr

/-- A basic block as the host enumerates it: `BBL_InsHead`, `INS_Next`, until
`INS_Valid` fails. -/
abbrev BBL := List INS

/-- Image kinds of the host; only `SHAREDLIB` is tested by the source. -/
inductive IMG_TYPE where
  | STATIC
  | SHARED
  | SHAREDLIB
  | RELOCATABLE
deriving DecidableEq, Repr

/-- What `Trace` asks the host about a trace: validity of its routine, of the
routine's section and of the section's image, the image type, and its blocks
(`TRACE_BblHead`, `BBL_Next`, until `BBL_Valid` fails). -/
structure TRACE where
  rtnValid : Bool
  secValid : Bool
  imgValid : Bool
  imgType : IMG_TYPE
  bbls : List BBL
deriving DecidableEq, Repr

/-- Ways the process ends early. -/
inductive Fatal where
  /-- The `exit(1)` after "Too many stats in this block" in `RecordLength`. -/
  | tooManyStats
  /-- Failed `ASSERTX(SEC_Valid(sec))` in `Trace`. -/
  | assertSecValid
  /-- Failed `ASSERTX(IMG_Valid(img))` in `Trace`. -/
  | assertImgValid
  /-- Failed `ASSERTX(count < MAX_BBL_SIZE)` in `Trace`. -/
  | assertCount
  /-- Failed `ASSERT(numThreads <= MaxNumThreads, ...)` in `ThreadStart`. -/
  | assertThreads
deriving DecidableEq, Repr

/-- The globals of the program.  `calls` is the table of analysis calls the
host has been asked to insert: each entry is the position in `statsList` of the
descriptor whose `_counter` the call was given. -/
structure State where
  MaxNumThreads : Nat
  KnobNoSharedLibs : Bool
  GlobalStats : STATS
  statsList : List BBLSTATS
  numThreads : Nat
  calls : List Nat
deriving DecidableEq, Repr

/-- The globals when `main` hands over to the host: `MaxNumThreads` and the
knob are read from the command line (both stored in their machine types),
`GlobalStats` is zero-initialised static storage, `statsList` is empty and
`numThreads = 0`. -/
def initState (maxThreads : Nat) (noSharedLibs : Bool) : State :=
  { MaxNumThreads := maxThreads % UINT32_MOD
    KnobNoSharedLibs := noSharedLibs
    GlobalStats := { bblength := List.replicate MAX_BBL_SIZE 0 }
    statsList := []
    numThreads := 0
    calls := [] }

/-! ## Thread registration -/

/-- Source function `ThreadStart`: `numThreads++` under the lock (whose owner
tag is the only use of `threadid`), then `ASSERT(numThreads <= MaxNumThreads)`. -/
def ThreadStart (s : State) (_threadid : Nat) : Except Fatal State :=
  let numThreads := (s.numThreads + 1) % UINT32_MOD
  if numThreads ≤ s.MaxNumThreads then .ok { s with numThreads := numThreads }
  else .error Fatal.assertThreads

/-! ## Aggregation -/

/-- The statement `bblength[size] += c` on a histogram. -/
def addToBucket (bblength : List Nat) (size : Int) (c : Nat) : List Nat :=
  if 0 ≤ size then
    bblength.set size.toNat ((bblength.getD size.toNat 0 + c) % COUNTER_MOD)
  else bblength

/-- The loop `for (i = 0; i < MAX_BBL_SIZE; i++) bblength[i] = 0`. -/
def clearStats (st : STATS) : STATS :=
  { bblength := (List.range MAX_BBL_SIZE).foldl (fun b i => b.set i 0) st.bblength }

/-- Inner loop of `ComputeGlobalStats` for one descriptor:
`for (thd = 0; thd < numThreads; thd++) bblength[bi->_size] += bi->_counter[thd]`. -/
def addBlockCounts (numThreads : Nat) (bblength : List Nat) (bi : BBLSTATS) : List Nat :=
  (List.range numThreads).foldl
    (fun b thd => addToBucket b bi._size (bi._counter.getD thd 0)) bblength

/-- Source function `ComputeGlobalStats`. -/
def ComputeGlobalStats (s : State) : State :=
  { s with GlobalStats :=
      { bblength := s.statsList.foldl (addBlockCounts s.numThreads) (clearStats s.GlobalStats).bblength } }

/-- The loop `total = 0; for (i = 0; i < MAX_BBL_SIZE; i++) total += bblength[i]`
of `Fini` and of `EmitPerThreadStats`. -/
def statsTotal (st : STATS) : Nat :=
  (List.range MAX_BBL_SIZE).foldl (fun total i => (total + st.bblength.getD i 0) % COUNTER_MOD) 0

/-- The local `ThreadStats` that `EmitPerThreadStats` builds for thread `thd`:
cleared, then `bblength[bi->_size] += bi->_counter[thd]` for every descriptor. -/
def ThreadStats (statsList : List BBLSTATS) (thd : Nat) : STATS :=
  { bblength := statsList.foldl
      (fun b bi => addToBucket b bi._size (bi._counter.getD thd 0))
      (clearStats { bblength := List.replicate MAX_BBL_SIZE 0 }).bblength }

/-- Source function `EmitPerThreadStats`, up to formatting: for each thread
index below `numThreads`, the index, its histogram and its total. -/
def EmitPerThreadStats (s : State) : List (Nat × STATS × Nat) :=
  (List.range s.numThreads).map
    (fun thd => (thd, ThreadStats s.statsList thd, statsTotal (ThreadStats s.statsList thd)))

/-- The grand total `Fini` computes: `ComputeGlobalStats()` followed by the
summation loop over `GlobalStats.bblength`. -/
def Fini_total (s : State) : Nat :=
  statsTotal (ComputeGlobalStats s).GlobalStats

/-! ## Report -/

/-- Sum of the buckets of a histogram over all lengths in `[0, MAX_BBL_SIZE)`,
as a natural number (no wrap-around). -/
def bucketTotal (st : STATS) : Nat :=
  ((List.range MAX_BBL_SIZE).map (fun i => st.bblength.getD i 0)).sum

/-- A data row of the report: block length, count, and the percent column. -/
structure Row where
  length : Nat
  count : Nat
  percent : Option Rat
deriving DecidableEq, Repr

/-- The percent column `100.0*bucket/total`.  The source evaluates it in
`double`; here the quotient is taken over the rationals, and it has no value
when `total` is 0. -/
def percentOf (bucket total : Nat) : Option Rat :=
  if total = 0 then none else some (100 * (bucket : Rat) / (total : Rat))

/-- The row loop of `Fini`:
`for (i = 0; i < MAX_BBL_SIZE; i++) if (bblength[i] > 0) ...` writes one row. -/
def Fini_rows (st : STATS) (total : Nat) : List Row :=
  ((List.range MAX_BBL_SIZE).filter (fun i => decide (0 < st.bblength.getD i 0))).map
    (fun i =>
      { length := i
        count := st.bblength.getD i 0
        percent := percentOf (st.bblength.getD i 0) total })

/-- What `Fini` writes to the report, line by line. -/
inductive Line where
  | text (t : String)
  | row (r : Row)
deriving DecidableEq, Repr

/-- The lines before the data rows. -/
def reportHeader : List Line :=
  [Line.text "#", Line.text "#block-length count percent", Line.text "#",
    Line.text "### All Threads"]

/-- The line after the data rows. -/
def reportFooter : List Line := [Line.text "# eof"]

/-- Source function `Fini`: the globals after `ComputeGlobalStats()` and the
lines written. -/
def Fini (s : State) : State × List Line :=
  let s1 := ComputeGlobalStats s
  let total := statsTotal s1.GlobalStats
  (s1, reportHeader ++ (Fini_rows s1.GlobalStats total).map Line.row ++ reportFooter)

/-- The data rows among the lines of a report. -/
def reportRows : List Line → List Row
  | [] => []
  | Line.row r :: rest => r :: reportRows rest
  | Line.text _ :: rest => reportRows rest

/-! ## Runtime counter -/

/-- Source function `docount`: `counter[tid]++`. -/
def docount (counter : List Nat) (tid : Nat) : List Nat :=
  counter.set tid ((counter.getD tid 0 + 1) % COUNTER_MOD)

/-- The host runs the analysis call attached to the block whose descriptor is
at position `i` of `statsList`, on thread `tid`.  There is such a call only if
`Trace` inserted it. -/
def execBlock (s : State) (i tid : Nat) : Option State :=
  if i ∈ s.calls then
    match s.statsList[i]? with
    | some bi =>
        some { s with statsList := s.statsList.set i { bi with _counter := docount bi._counter tid } }
    | none => none
  else none

/-! ## Instrumentation -/

/-- The `for` loop of `RecordLength`, started with the given `count`; its
result is the value of `count` when the loop ends, which is the index of the
terminator write `stats[count++] = 0`. -/
def RecordLength_loop : BBL → Nat → Nat → Except Fatal Nat
  | [], count, _ => .ok count
  | _ :: rest, count, max_stats =>
      if count ≥ max_stats then .error Fatal.tooManyStats
      else RecordLength_loop rest ((count + 1) % UINT32_MOD) max_stats

/-- Source function `RecordLength`: the returned `INT32` and the buffer after
the terminator write. -/
def RecordLength (bbl : BBL) (stats : List (Option Nat)) (max_stats : Nat) :
    Except Fatal (Int × List (Option Nat)) :=
  match RecordLength_loop bbl 0 max_stats with
  | .error e => .error e
  | .ok count => .ok (toINT32 ((count + 1) % UINT32_MOD), stats.set count (some 0))

/-- Body of the block loop of `Trace`. -/
def Trace_bbl (s : State) (bbl : BBL) : Except Fatal State :=
  match RecordLength bbl (List.replicate MAX_BBL_SIZE none) MAX_BBL_SIZE with
  | .error e => .error e
  | .ok (count, buffer) =>
      if count < (MAX_BBL_SIZE : Int) then
        let stats := buffer.take count.toNat
        let bblstats := BBLSTATS.create s.MaxNumThreads stats (count - 1)
        .ok { s with
                calls := s.calls ++ [s.statsList.length]
                statsList := s.statsList ++ [bblstats] }
      else .error Fatal.assertCount

/-- The block loop of `Trace`. -/
def Trace_loop : State → List BBL → Except Fatal State
  | s, [] => .ok s
  | s, bbl :: rest =>
      match Trace_bbl s bbl with
      | .error e => .error e
      | .ok s1 => Trace_loop s1 rest

/-- Source function `Trace`. -/
def Trace (s : State) (trace : TRACE) : Except Fatal State :=
  if !trace.rtnValid then .ok s
  else if !trace.secValid then .error Fatal.assertSecValid
  else if !trace.imgValid then .error Fatal.assertImgValid
  else if s.KnobNoSharedLibs && (trace.rtnValid && trace.secValid && trace.imgValid)
      && decide (trace.imgType = IMG_TYPE.SHAREDLIB) then .ok s
  else Trace_loop s trace.bbls

/-! ## Runs -/

/-- What the host can deliver, plus the aggregation step. -/
inductive Event where
  | threadStart (threadid : Nat)
  | trace (t : TRACE)
  | exec (i tid : Nat)
  | computeGlobalStats
deriving DecidableEq, Repr

/-- One event; `none` when the process ends early or the event cannot occur. -/
def step (s : State) : Event → Option State
  | .threadStart threadid => (ThreadStart s threadid).toOption
  | .trace t => (Trace s t).toOption
  | .exec i tid => execBlock s i tid
  | .computeGlobalStats => some (ComputeGlobalStats s)

/-- A sequence of events, none of which ends the process. -/
def run : State → List Event → Option State
  | s, [] => some s
  | s, e :: rest =>
      match step s e with
      | none => none
      | some s1 => run s1 rest

/-- States reachable from the state `main` sets up. -/
def Reachable (s : State) : Prop :=
  ∃ maxThreads noSharedLibs events, run (initState maxThreads noSharedLibs) events = some s

/-- Number of block executions in a sequence of events. -/
def execCount : List Event → Nat
  | [] => 0
  | .exec _ _ :: rest => execCount rest + 1
  | _ :: rest => execCount rest

/-! ## Sums named by the properties -/

/-- Sum of `_counter[thd]` over `thd < numThreads` for one descriptor. -/
def threadSum (numThreads : Nat) (bi : BBLSTATS) : Nat :=
  ((List.range numThreads).map (fun thd => bi._counter.getD thd 0)).sum

/-- Sum of `_counter[thd]` over every descriptor with `_size == L` and every
`thd < numThreads`, in 64-bit unsigned arithmetic. -/
def bucketSum (statsList : List BBLSTATS) (numThreads : Nat) (L : Nat) : Nat :=
  ((statsList.filter (fun bi => decide (bi._size = (L : Int)))).map (threadSum numThreads)).sum
    % COUNTER_MOD

/-- Sum of `_counter[thd]` over all descriptors and all `thd < numThreads`. -/
def counterSum (statsList : List BBLSTATS) (numThreads : Nat) : Nat :=
  (statsList.map (threadSum numThreads)).sum

/-! ## Sample data and auxiliary predicates -/

/-- The registry of the end-to-end scenario: blocks of lengths 2, 2 and 5,
executed 10, 5, 1 times by thread 0 and 0, 5, 0 times by thread 1. -/
def scenarioList : List BBLSTATS :=
  [ { _stats := [none, none, some 0], _size := 2, _counter := [10, 0] },
    { _stats := [none, none, some 0], _size := 2, _counter := [5, 5] },
    { _stats := [none, none, none, none, none, some 0], _size := 5, _counter := [1, 0] } ]

/-- The scenario as a state: two registered threads and a stale `GlobalStats`. -/
def scenarioState : State :=
  { MaxNumThreads := 2
    KnobNoSharedLibs := false
    GlobalStats := { bblength := List.replicate MAX_BBL_SIZE 7 }
    statsList := scenarioList
    numThreads := 2
    calls := [0, 1, 2] }

/-- One registered block whose thread-1 counter is at the top of its range. -/
def wrapState : State :=
  { MaxNumThreads := 2
    KnobNoSharedLibs := false
    GlobalStats := { bblength := List.replicate MAX_BBL_SIZE 0 }
    statsList := [{ _stats := [none, some 0], _size := 1, _counter := [3, 2 ^ 64 - 1] }]
    numThreads := 2
    calls := [0] }

/-- What every step keeps true of the globals. -/
def WellFormed (s : State) : Prop :=
  s.numThreads ≤ s.MaxNumThreads ∧
  s.GlobalStats.bblength.length = MAX_BBL_SIZE ∧
  (∀ bi ∈ s.statsList,
    0 ≤ bi._size ∧ bi._size + 1 < (MAX_BBL_SIZE : Int) ∧
      bi._counter.length = s.MaxNumThreads) ∧
  (∀ i ∈ s.calls, i < s.statsList.length)

/-- A short run: one thread starts, a trace with blocks of 2 and 1
instructions is discovered, the first block runs twice and the second once on
thread 0, and the histogram is computed. -/
def sampleEvents : List Event :=
  [ Event.threadStart 0,
    Event.trace { rtnValid := true, secValid := true, imgValid := true,
                  imgType := IMG_TYPE.STATIC,
                  bbls := [[INS.mk 4096, INS.mk 4100], [INS.mk 4104]] },
    Event.exec 0 0, Event.exec 1 0, Event.exec 0 0,
    Event.computeGlobalStats ]

/-- The state `sampleEvents` reaches before its last step, started with a
bound of 2 threads. -/
def sampleCounted : State :=
  { MaxNumThreads := 2
    KnobNoSharedLibs := false
    GlobalStats := { bblength := List.replicate MAX_BBL_SIZE 0 }
    statsList :=
      [ { _stats := [none, none, some 0], _size := 2, _counter := [2, 0] },
        { _stats := [none, some 0], _size := 1, _counter := [1, 0] } ]
    numThreads := 1
    calls := [0, 1] }

/-- The state after `sampleEvents`. -/
def sampleState : State := ComputeGlobalStats sampleCounted

/-- The first `k` thread starts in a row, the `i`-th for thread id `i`. -/
def startThreads (s : State) : Nat → Except Fatal State
  | 0 => .ok s
  | k + 1 =>
      match startThreads s k with
      | .error e => .error e
      | .ok s1 => ThreadStart s1 k

/-- Sum of every slot of every counter array of the registry. -/
def slotSum (statsList : List BBLSTATS) : Nat :=
  (statsList.map (fun bi => bi._counter.sum)).sum

/-- No counter slot at an index from `n` on has been written. -/
def ZeroAbove (n : Nat) (statsList : List BBLSTATS) : Prop :=
  ∀ bi ∈ statsList, ∀ j, n ≤ j → bi._counter.getD j 0 = 0

/-- The state after the block loop of `Trace` has accepted a block of two
instructions in `scenarioState`. -/
def acceptedState : State :=
  { scenarioState with
      calls := [0, 1, 2, 3]
      statsList := scenarioList ++ [BBLSTATS.create 2 [none, none, some 0] 2] }

/-- Two blocks of lengths 1 and 2, each executed `2 ^ 63` times by the one
registered thread: the executions add up to `2 ^ 64`. -/
def halfList : List BBLSTATS :=
  [ { _stats := [none, some 0], _size := 1, _counter := [2 ^ 63] },
    { _stats := [none, none, some 0], _size := 2, _counter := [2 ^ 63] } ]

/-- The globals with `halfList` as registry. -/
def halfState : State :=
  { MaxNumThreads := 1
    KnobNoSharedLibs := false
    GlobalStats := { bblength := List.replicate MAX_BBL_SIZE 0 }
    statsList := halfList
    numThreads := 1
    calls := [0, 1] }

/-- Two blocks of lengths 1 and 2, executed `2 ^ 63` and `2 ^ 63 + 1` times by
the one registered thread: the executions add up to `2 ^ 64 + 1`. -/
def overflowList : List BBLSTATS :=
  [ { _stats := [none, some 0], _size := 1, _counter := [2 ^ 63] },
    { _stats := [none, none, some 0], _size := 2, _counter := [2 ^ 63 + 1] } ]

/-- The globals with `overflowList` as registry. -/
def overflowState : State :=
  { MaxNumThreads := 1
    KnobNoSharedLibs := false
    GlobalStats := { bblength := List.replicate MAX_BBL_SIZE 0 }
    statsList := overflowList
    numThreads := 1
    calls := [0, 1] }

/-- Two blocks of lengths 3 and 7, executed 3 times and once by thread 0. -/
def quarterState : State :=
  { MaxNumThreads := 2
    KnobNoSharedLibs := false
    GlobalStats := { bblength := List.replicate MAX_BBL_SIZE 0 }
    statsList :=
      [ { _stats := [none, none, none, some 0], _size := 3, _counter := [3, 0] },
        { _stats := [none, none, none, none, none, none, none, some 0], _size := 7,
          _counter := [1, 0] } ]
    numThreads := 1
    calls := [0, 1] }

/-- The descriptor the block loop of `Trace` registers for a block it accepts. -/
def descriptorOf (MaxNumThreads : Nat) (bbl : BBL) : BBLSTATS :=
  BBLSTATS.create MaxNumThreads (List.replicate bbl.length none ++ [some 0]) (bbl.length : Int)

/-- A trace of a shared library with two blocks, of 2 and 1 instructions. -/
def sharedLibTrace : TRACE :=
  { rtnValid := true, secValid := true, imgValid := true, imgType := IMG_TYPE.SHAREDLIB,
    bbls := [[INS.mk 4096, INS.mk 4100], [INS.mk 4104]] }

/-- A trace of a shared library with one block of 1001 instructions. -/
def longSharedLibTrace : TRACE :=
  { rtnValid := true, secValid := true, imgValid := true, imgType := IMG_TYPE.SHAREDLIB,
    bbls := [List.replicate 1001 (INS.mk 0)] }

/-- A trace whose routine is not valid, with one block. -/
def invalidRtnTrace : TRACE :=
  { rtnValid := false, secValid := false, imgValid := false, imgType := IMG_TYPE.STATIC,
    bbls := [[INS.mk 4096, INS.mk 4100]] }

/-- The scenario with its registry in the opposite insertion order. -/
def scenarioReversed : State :=
  { scenarioState with statsList := scenarioList.reverse }

/-- One thread starts, a block of one instruction is discovered, and the host
runs it on thread id 1. -/
def droppedEvents : List Event :=
  [ Event.threadStart 0,
    Event.trace { rtnValid := true, secValid := true, imgValid := true,
                  imgType := IMG_TYPE.STATIC, bbls := [[INS.mk 4096]] },
    Event.exec 0 1 ]

/-- The state after `droppedEvents`, started with a bound of 2 threads. -/
def droppedState : State :=
  { MaxNumThreads := 2
    KnobNoSharedLibs := false
    GlobalStats := { bblength := List.replicate MAX_BBL_SIZE 0 }
    statsList := [{ _stats := [none, some 0], _size := 1, _counter := [0, 1] }]
    numThreads := 1
    calls := [0] }

/-! ## Lemmas -/

theorem getD_set_nat (b : List Nat) (i j v : Nat) :
    (b.set i v).getD j 0 = if i = j ∧ j < b.length then v else b.getD j 0 := by
  simp only [List.getD_eq_getElem?_getD, List.getElem?_set]
  by_cases h : i = j
  · subst h
    by_cases hl : i < b.length
    · simp [hl]
    · simp [hl, List.getElem?_eq_none (Nat.le_of_not_lt hl)]
  · simp [h]

theorem addToBucket_length (b : List Nat) (sz : Int) (c : Nat) :
    (addToBucket b sz c).length = b.length := by
  unfold addToBucket
  split <;> simp

theorem addToBucket_getD (b : List Nat) (sz : Int) (c : Nat) (L : Nat) :
    (addToBucket b sz c).getD L 0 =
      if sz = (L : Int) ∧ L < b.length then (b.getD L 0 + c) % COUNTER_MOD else b.getD L 0 := by
  unfold addToBucket
  by_cases h0 : 0 ≤ sz
  · rw [if_pos h0, getD_set_nat]
    by_cases h : sz = (L : Int)
    · subst h
      simp
    · have : ¬ sz.toNat = L := by
        intro hh
        apply h
        rw [← hh, Int.toNat_of_nonneg h0]
      simp [h, this]
  · rw [if_neg h0]
    have : ¬ sz = (L : Int) := by
      intro hh
      apply h0
      rw [hh]
      exact Int.natCast_nonneg L
    simp [this]

theorem threadSum_succ (n : Nat) (bi : BBLSTATS) :
    threadSum (n + 1) bi = threadSum n bi + bi._counter.getD n 0 := by
  simp [threadSum, List.range_succ]

theorem addBlockCounts_succ (n : Nat) (b : List Nat) (bi : BBLSTATS) :
    addBlockCounts (n + 1) b bi
      = addToBucket (addBlockCounts n b bi) bi._size (bi._counter.getD n 0) := by
  simp [addBlockCounts, List.range_succ, List.foldl_append]

theorem addBlockCounts_length (n : Nat) (b : List Nat) (bi : BBLSTATS) :
    (addBlockCounts n b bi).length = b.length := by
  induction n with
  | zero => simp [addBlockCounts]
  | succ k ih => rw [addBlockCounts_succ, addToBucket_length, ih]

theorem addBlockCounts_getD (n : Nat) (b : List Nat) (bi : BBLSTATS) (L : Nat)
    (hb : b.getD L 0 < COUNTER_MOD) :
    (addBlockCounts n b bi).getD L 0 =
      if bi._size = (L : Int) ∧ L < b.length then (b.getD L 0 + threadSum n bi) % COUNTER_MOD
      else b.getD L 0 := by
  induction n with
  | zero =>
    have : threadSum 0 bi = 0 := by simp [threadSum]
    simp only [addBlockCounts, List.range_zero, List.foldl_nil, this, Nat.add_zero,
      Nat.mod_eq_of_lt hb, ite_self]
  | succ k ih =>
    rw [addBlockCounts_succ, addToBucket_getD, addBlockCounts_length, ih, threadSum_succ]
    by_cases h : bi._size = (L : Int) ∧ L < b.length
    · simp only [h, and_self, if_true]
      rw [Nat.mod_add_mod, Nat.add_assoc]
    · simp only [h, if_false]

theorem foldl_addBlockCounts_length (n : Nat) (reg : List BBLSTATS) (b : List Nat) :
    (reg.foldl (addBlockCounts n) b).length = b.length := by
  induction reg generalizing b with
  | nil => rfl
  | cons bi rest ih => rw [List.foldl_cons, ih, addBlockCounts_length]

theorem foldl_addBlockCounts_getD (n : Nat) (reg : List BBLSTATS) (b : List Nat) (L : Nat)
    (hb : b.getD L 0 < COUNTER_MOD) (hL : L < b.length) :
    (reg.foldl (addBlockCounts n) b).getD L 0 =
      (b.getD L 0 +
        ((reg.filter (fun bi => decide (bi._size = (L : Int)))).map (threadSum n)).sum)
        % COUNTER_MOD := by
  induction reg generalizing b with
  | nil =>
    simp only [List.foldl_nil, List.filter_nil, List.map_nil, List.sum_nil, Nat.add_zero,
      Nat.mod_eq_of_lt hb]
  | cons bi rest ih =>
    have hstep := addBlockCounts_getD n b bi L hb
    have hlen := addBlockCounts_length n b bi
    have hlt : (addBlockCounts n b bi).getD L 0 < COUNTER_MOD := by
      rw [hstep]
      split
      · exact Nat.mod_lt _ (by decide)
      · exact hb
    rw [List.foldl_cons, ih _ hlt (by rw [hlen]; exact hL), hstep]
    by_cases h : bi._size = (L : Int)
    · simp only [h, hL, and_self, if_true, List.filter_cons, decide_True, List.map_cons,
        List.sum_cons]
      rw [Nat.mod_add_mod, Nat.add_assoc]
    · simp [h, List.filter_cons]

theorem foldl_set_zero_getElem? (n : Nat) (b : List Nat) (i : Nat) :
    ((List.range n).foldl (fun b i => b.set i 0) b)[i]? =
      if i < n ∧ i < b.length then some 0 else b[i]? := by
  induction n with
  | zero => simp
  | succ k ih =>
    rw [List.range_succ, List.foldl_append]
    simp only [List.foldl_cons, List.foldl_nil, List.getElem?_set, ih]
    have hlen : ((List.range k).foldl (fun b i => b.set i 0) b).length = b.length := by
      clear ih
      induction k with
      | zero => rfl
      | succ m ihm => rw [List.range_succ, List.foldl_append]; simpa using ihm
    rw [hlen]
    by_cases hki : k = i
    · subst hki
      by_cases hl : k < b.length
      · simp [hl]
      · simp [hl, List.getElem?_eq_none (Nat.le_of_not_lt hl)]
    · simp only [hki, if_false]
      by_cases hik : i < k
      · have : i < k + 1 := by omega
        simp [hik, this]
      · have : ¬ i < k + 1 := by omega
        simp [hik, this]

theorem clearStats_bblength (st : STATS) (h : st.bblength.length = MAX_BBL_SIZE) :
    (clearStats st).bblength = List.replicate MAX_BBL_SIZE 0 := by
  apply List.ext_getElem?
  intro i
  unfold clearStats
  simp only [foldl_set_zero_getElem?, h, and_self, List.getElem?_replicate]
  split
  · rfl
  · exact List.getElem?_eq_none (by omega)

theorem replicate_zero_getD (n L : Nat) : (List.replicate n (0 : Nat)).getD L 0 = 0 := by
  simp only [List.getD_eq_getElem?_getD, List.getElem?_replicate]
  split <;> rfl

theorem getElem?_of_getD {b : List Nat} {L v : Nat} (hL : L < b.length)
    (h : b.getD L 0 = v) : b[L]? = some v := by
  rw [List.getD_eq_getElem?_getD, List.getElem?_eq_getElem hL] at h
  rw [List.getElem?_eq_getElem hL]
  simpa using h

/-- Bucket `L` after `ComputeGlobalStats`. -/
theorem ComputeGlobalStats_getD (s : State) (h : s.GlobalStats.bblength.length = MAX_BBL_SIZE)
    (L : Nat) (hL : L < MAX_BBL_SIZE) :
    (ComputeGlobalStats s).GlobalStats.bblength.getD L 0 = bucketSum s.statsList s.numThreads L := by
  unfold ComputeGlobalStats bucketSum
  simp only [clearStats_bblength _ h]
  rw [foldl_addBlockCounts_getD _ _ _ _ (by rw [replicate_zero_getD]; decide)
    (by rw [List.length_replicate]; exact hL), replicate_zero_getD, Nat.zero_add]

theorem ComputeGlobalStats_length (s : State) (h : s.GlobalStats.bblength.length = MAX_BBL_SIZE) :
    (ComputeGlobalStats s).GlobalStats.bblength.length = MAX_BBL_SIZE := by
  unfold ComputeGlobalStats
  simp only [clearStats_bblength _ h, foldl_addBlockCounts_length, List.length_replicate]

theorem foldl_addToBucket_length (thd : Nat) (reg : List BBLSTATS) (b : List Nat) :
    (reg.foldl (fun b bi => addToBucket b bi._size (bi._counter.getD thd 0)) b).length
      = b.length := by
  induction reg generalizing b with
  | nil => rfl
  | cons bi rest ih => rw [List.foldl_cons, ih, addToBucket_length]

theorem foldl_addToBucket_getD (thd : Nat) (reg : List BBLSTATS) (b : List Nat) (L : Nat)
    (hb : b.getD L 0 < COUNTER_MOD) (hL : L < b.length) :
    (reg.foldl (fun b bi => addToBucket b bi._size (bi._counter.getD thd 0)) b).getD L 0 =
      (b.getD L 0 +
        ((reg.filter (fun bi => decide (bi._size = (L : Int)))).map
          (fun bi => bi._counter.getD thd 0)).sum) % COUNTER_MOD := by
  induction reg generalizing b with
  | nil =>
    simp only [List.foldl_nil, List.filter_nil, List.map_nil, List.sum_nil, Nat.add_zero,
      Nat.mod_eq_of_lt hb]
  | cons bi rest ih =>
    have hstep := addToBucket_getD b bi._size (bi._counter.getD thd 0) L
    have hlen := addToBucket_length b bi._size (bi._counter.getD thd 0)
    have hlt : (addToBucket b bi._size (bi._counter.getD thd 0)).getD L 0 < COUNTER_MOD := by
      rw [hstep]
      split
      · exact Nat.mod_lt _ (by decide)
      · exact hb
    rw [List.foldl_cons, ih _ hlt (by rw [hlen]; exact hL), hstep]
    by_cases h : bi._size = (L : Int)
    · simp only [h, hL, and_self, if_true, List.filter_cons, decide_True, List.map_cons,
        List.sum_cons]
      rw [Nat.mod_add_mod, Nat.add_assoc]
    · simp [h, List.filter_cons]

/-- Bucket `L` of the per-thread histogram of thread `thd`. -/
theorem ThreadStats_getD (reg : List BBLSTATS) (thd L : Nat) (hL : L < MAX_BBL_SIZE) :
    (ThreadStats reg thd).bblength.getD L 0 =
      ((reg.filter (fun bi => decide (bi._size = (L : Int)))).map
        (fun bi => bi._counter.getD thd 0)).sum % COUNTER_MOD := by
  unfold ThreadStats
  simp only [clearStats_bblength _ (List.length_replicate _ _)]
  rw [foldl_addToBucket_getD _ _ _ _ (by rw [replicate_zero_getD]; decide)
    (by rw [List.length_replicate]; exact hL), replicate_zero_getD, Nat.zero_add]

theorem ThreadStats_length (reg : List BBLSTATS) (thd : Nat) :
    (ThreadStats reg thd).bblength.length = MAX_BBL_SIZE := by
  unfold ThreadStats
  simp only [clearStats_bblength _ (List.length_replicate _ _), foldl_addToBucket_length,
    List.length_replicate]

theorem sum_map_mod (f : Nat → Nat) (m : Nat) (l : List Nat) :
    (l.map (fun x => f x % m)).sum % m = (l.map f).sum % m := by
  induction l with
  | nil => rfl
  | cons a rest ih =>
    simp only [List.map_cons, List.sum_cons]
    rw [Nat.add_mod, Nat.mod_mod, ih, ← Nat.add_mod]

theorem sum_threadSum_eq (reg : List BBLSTATS) (n : Nat) :
    (reg.map (threadSum n)).sum =
      ((List.range n).map (fun thd => (reg.map (fun bi => bi._counter.getD thd 0)).sum)).sum := by
  induction n with
  | zero =>
    have h0 : threadSum 0 = fun _ => 0 := by
      funext bi
      simp [threadSum]
    rw [h0]
    simp
  | succ k ih =>
    have h1 : (reg.map (threadSum (k + 1))).sum
        = (reg.map (threadSum k)).sum + (reg.map (fun bi => bi._counter.getD k 0)).sum := by
      clear ih
      induction reg with
      | nil => rfl
      | cons bi rest ihr =>
        simp only [List.map_cons, List.sum_cons, ihr, threadSum_succ]
        omega
    rw [h1, ih, List.range_succ, List.map_append, List.sum_append]
    simp

/-- The global bucket is the sum of the per-thread buckets. -/
theorem bucketSum_eq_sum_ThreadStats (reg : List BBLSTATS) (n L : Nat) (hL : L < MAX_BBL_SIZE) :
    bucketSum reg n L =
      ((List.range n).map (fun thd => (ThreadStats reg thd).bblength.getD L 0)).sum
        % COUNTER_MOD := by
  have h : (fun thd => (ThreadStats reg thd).bblength.getD L 0) =
      (fun thd => ((reg.filter (fun bi => decide (bi._size = (L : Int)))).map
        (fun bi => bi._counter.getD thd 0)).sum % COUNTER_MOD) := by
    funext thd
    exact ThreadStats_getD reg thd L hL
  rw [h, sum_map_mod, ← sum_threadSum_eq]
  rfl

theorem docount_length (counter : List Nat) (tid : Nat) :
    (docount counter tid).length = counter.length := by
  simp [docount]

theorem docount_getElem?_self (counter : List Nat) (tid : Nat) (h : tid < counter.length) :
    (docount counter tid)[tid]? = some ((counter.getD tid 0 + 1) % COUNTER_MOD) := by
  unfold docount
  rw [List.getElem?_set]
  simp [h]

theorem docount_getElem?_ne (counter : List Nat) (tid j : Nat) (h : j ≠ tid) :
    (docount counter tid)[j]? = counter[j]? := by
  unfold docount
  rw [List.getElem?_set]
  simp [Ne.symm h]

theorem execBlock_eq (s : State) (i tid : Nat) (bi : BBLSTATS) (hcall : i ∈ s.calls)
    (hbi : s.statsList[i]? = some bi) :
    execBlock s i tid =
      some { s with statsList := s.statsList.set i { bi with _counter := docount bi._counter tid } } := by
  unfold execBlock
  rw [if_pos hcall, hbi]

theorem RecordLength_loop_ok (bbl : BBL) (count max_stats : Nat)
    (hmax : max_stats < UINT32_MOD) (h : count + bbl.length ≤ max_stats) :
    RecordLength_loop bbl count max_stats = .ok (count + bbl.length) := by
  induction bbl generalizing count with
  | nil => simp [RecordLength_loop]
  | cons ins rest ih =>
    simp only [List.length_cons] at h
    have hlt : ¬ count ≥ max_stats := by omega
    have hmod : (count + 1) % UINT32_MOD = count + 1 := Nat.mod_eq_of_lt (by omega)
    rw [RecordLength_loop, if_neg hlt, hmod, ih (count + 1) (by omega)]
    simp only [List.length_cons]
    congr 1
    omega

theorem RecordLength_loop_exit (bbl : BBL) (count max_stats : Nat)
    (hmax : max_stats < UINT32_MOD) (hc : count ≤ max_stats)
    (h : max_stats < count + bbl.length) :
    RecordLength_loop bbl count max_stats = .error Fatal.tooManyStats := by
  induction bbl generalizing count with
  | nil => simp only [List.length_nil] at h; omega
  | cons ins rest ih =>
    simp only [List.length_cons] at h
    by_cases hge : count ≥ max_stats
    · rw [RecordLength_loop, if_pos hge]
    · have hmod : (count + 1) % UINT32_MOD = count + 1 := Nat.mod_eq_of_lt (by omega)
      rw [RecordLength_loop, if_neg hge, hmod, ih (count + 1) (by omega) (by omega)]

theorem toINT32_small (u : Nat) (h : u < 2 ^ 31) : toINT32 u = (u : Int) := by
  have hm : u % UINT32_MOD = u := Nat.mod_eq_of_lt (by unfold UINT32_MOD; omega)
  unfold toINT32
  rw [hm, if_pos h]

/-- What `RecordLength` returns when called as in `Trace`. -/
theorem RecordLength_eq (bbl : BBL) (stats : List (Option Nat)) :
    RecordLength bbl stats MAX_BBL_SIZE =
      if bbl.length ≤ MAX_BBL_SIZE then
        .ok (((bbl.length + 1 : Nat) : Int), stats.set bbl.length (some 0))
      else .error Fatal.tooManyStats := by
  unfold RecordLength
  have hmax : MAX_BBL_SIZE < UINT32_MOD := by decide
  by_cases h : bbl.length ≤ MAX_BBL_SIZE
  · rw [if_pos h, RecordLength_loop_ok bbl 0 MAX_BBL_SIZE hmax (by omega)]
    have hM : MAX_BBL_SIZE = 1000 := rfl
    have hU : UINT32_MOD = 4294967296 := rfl
    have hmod : (bbl.length + 1) % UINT32_MOD = bbl.length + 1 :=
      Nat.mod_eq_of_lt (by omega)
    simp only [Nat.zero_add]
    rw [hmod, toINT32_small _ (by omega)]
  · rw [if_neg h, RecordLength_loop_exit bbl 0 MAX_BBL_SIZE hmax (Nat.zero_le _) (by omega)]

/-- The three outcomes of the body of the block loop. -/
theorem Trace_bbl_eq (s : State) (bbl : BBL) :
    Trace_bbl s bbl =
      if bbl.length + 1 < MAX_BBL_SIZE then
        .ok { s with
                calls := s.calls ++ [s.statsList.length]
                statsList := s.statsList ++
                  [BBLSTATS.create s.MaxNumThreads
                    (((List.replicate MAX_BBL_SIZE none).set bbl.length (some 0)).take
                      (bbl.length + 1))
                    (bbl.length : Int)] }
      else if bbl.length ≤ MAX_BBL_SIZE then .error Fatal.assertCount
      else .error Fatal.tooManyStats := by
  unfold Trace_bbl
  rw [RecordLength_eq]
  have hM : MAX_BBL_SIZE = 1000 := rfl
  by_cases h1 : bbl.length + 1 < MAX_BBL_SIZE
  · have h2 : bbl.length ≤ MAX_BBL_SIZE := by omega
    have h3 : ((bbl.length + 1 : Nat) : Int) < (MAX_BBL_SIZE : Int) := by omega
    simp only [h1, h2, if_true]
    rw [if_pos h3]
    have h4 : ((bbl.length + 1 : Nat) : Int).toNat = bbl.length + 1 := Int.toNat_ofNat _
    have h5 : ((bbl.length + 1 : Nat) : Int) - 1 = (bbl.length : Int) := by omega
    rw [h4, h5]
  · by_cases h2 : bbl.length ≤ MAX_BBL_SIZE
    · have h3 : ¬ ((bbl.length + 1 : Nat) : Int) < (MAX_BBL_SIZE : Int) := by omega
      simp only [h1, h2, if_true, if_false]
      rw [if_neg h3]
    · simp only [h1, h2, if_false]

theorem Trace_loop_fatal (bbls : List BBL) (s : State) (bbl : BBL) (hmem : bbl ∈ bbls)
    (hlen : MAX_BBL_SIZE ≤ bbl.length + 1) : ∃ f, Trace_loop s bbls = .error f := by
  induction bbls generalizing s with
  | nil => cases hmem
  | cons b rest ih =>
    have hM : MAX_BBL_SIZE = 1000 := rfl
    rcases List.mem_cons.mp hmem with hb | hr
    · subst hb
      have h1 : ¬ bbl.length + 1 < MAX_BBL_SIZE := by omega
      have hf : ∃ f, Trace_bbl s bbl = .error f := by
        rw [Trace_bbl_eq, if_neg h1]
        by_cases h2 : bbl.length ≤ MAX_BBL_SIZE
        · exact ⟨_, if_pos h2⟩
        · exact ⟨_, if_neg h2⟩
      rcases hf with ⟨f, hf⟩
      exact ⟨f, by simp only [Trace_loop, hf]⟩
    · cases hres : Trace_bbl s b with
      | error e => exact ⟨e, by simp only [Trace_loop, hres]⟩
      | ok s1 =>
        rcases ih s1 hr with ⟨f, hf⟩
        exact ⟨f, by simp only [Trace_loop, hres, hf]⟩

theorem WellFormed_initState (maxThreads : Nat) (noSharedLibs : Bool) :
    WellFormed (initState maxThreads noSharedLibs) := by
  refine ⟨Nat.zero_le _, List.length_replicate _ _, ?_, ?_⟩
  · intro bi hbi; cases hbi
  · intro i hi; cases hi

theorem ThreadStart_ok {s s1 : State} {threadid : Nat} (h : ThreadStart s threadid = .ok s1) :
    (s.numThreads + 1) % UINT32_MOD ≤ s.MaxNumThreads ∧
      s1 = { s with numThreads := (s.numThreads + 1) % UINT32_MOD } := by
  unfold ThreadStart at h
  by_cases hle : (s.numThreads + 1) % UINT32_MOD ≤ s.MaxNumThreads
  · simp only [hle, if_true] at h
    injection h with h
    exact ⟨hle, h.symm⟩
  · simp only [hle, if_false] at h
    cases h

theorem Trace_bbl_ok {s s1 : State} {bbl : BBL} (h : Trace_bbl s bbl = .ok s1) :
    bbl.length + 1 < MAX_BBL_SIZE ∧
      s1 = { s with
              calls := s.calls ++ [s.statsList.length]
              statsList := s.statsList ++
                [BBLSTATS.create s.MaxNumThreads
                  (((List.replicate MAX_BBL_SIZE none).set bbl.length (some 0)).take
                    (bbl.length + 1))
                  (bbl.length : Int)] } := by
  rw [Trace_bbl_eq] at h
  by_cases h1 : bbl.length + 1 < MAX_BBL_SIZE
  · rw [if_pos h1] at h
    injection h with h
    exact ⟨h1, h.symm⟩
  · rw [if_neg h1] at h
    by_cases h2 : bbl.length ≤ MAX_BBL_SIZE
    · rw [if_pos h2] at h; cases h
    · rw [if_neg h2] at h; cases h

theorem Trace_bbl_WellFormed {s s1 : State} {bbl : BBL} (hw : WellFormed s)
    (h : Trace_bbl s bbl = .ok s1) : WellFormed s1 := by
  obtain ⟨hlt, rfl⟩ := Trace_bbl_ok h
  obtain ⟨h1, h2, h3, h4⟩ := hw
  refine ⟨h1, h2, ?_, ?_⟩
  · intro bi hbi
    rcases List.mem_append.mp hbi with hold | hnew
    · exact h3 bi hold
    · rw [List.mem_singleton.mp hnew]
      refine ⟨Int.natCast_nonneg _, ?_, List.length_replicate _ _⟩
      show (bbl.length : Int) + 1 < (MAX_BBL_SIZE : Int)
      omega
  · intro i hi
    simp only [List.length_append, List.length_singleton]
    rcases List.mem_append.mp hi with hold | hnew
    · have := h4 i hold
      omega
    · rw [List.mem_singleton.mp hnew]
      omega

theorem Trace_bbl_frame {s s1 : State} {bbl : BBL} (h : Trace_bbl s bbl = .ok s1) :
    s1.numThreads = s.numThreads ∧ s1.MaxNumThreads = s.MaxNumThreads ∧
      s1.KnobNoSharedLibs = s.KnobNoSharedLibs ∧ s1.GlobalStats = s.GlobalStats := by
  obtain ⟨_, rfl⟩ := Trace_bbl_ok h
  exact ⟨rfl, rfl, rfl, rfl⟩

theorem Trace_loop_WellFormed (bbls : List BBL) {s s1 : State} (hw : WellFormed s)
    (h : Trace_loop s bbls = .ok s1) : WellFormed s1 := by
  induction bbls generalizing s with
  | nil =>
    simp only [Trace_loop] at h
    injection h with h
    rw [← h]; exact hw
  | cons b rest ih =>
    cases hb : Trace_bbl s b with
    | error e => simp only [Trace_loop, hb] at h; cases h
    | ok s2 =>
      simp only [Trace_loop, hb] at h
      exact ih (Trace_bbl_WellFormed hw hb) h

theorem Trace_loop_frame (bbls : List BBL) {s s1 : State} (h : Trace_loop s bbls = .ok s1) :
    s1.numThreads = s.numThreads ∧ s1.MaxNumThreads = s.MaxNumThreads ∧
      s1.KnobNoSharedLibs = s.KnobNoSharedLibs ∧ s1.GlobalStats = s.GlobalStats := by
  induction bbls generalizing s with
  | nil =>
    simp only [Trace_loop] at h
    injection h with h
    rw [← h]; exact ⟨rfl, rfl, rfl, rfl⟩
  | cons b rest ih =>
    cases hb : Trace_bbl s b with
    | error e => simp only [Trace_loop, hb] at h; cases h
    | ok s2 =>
      simp only [Trace_loop, hb] at h
      obtain ⟨a1, a2, a3, a4⟩ := Trace_bbl_frame hb
      obtain ⟨b1, b2, b3, b4⟩ := ih h
      exact ⟨b1.trans a1, b2.trans a2, b3.trans a3, b4.trans a4⟩

/-- A trace that does not end the process either leaves the state as it is or
runs the block loop. -/
theorem Trace_ok {s s1 : State} {t : TRACE} (h : Trace s t = .ok s1) :
    s1 = s ∨ Trace_loop s t.bbls = .ok s1 := by
  unfold Trace at h
  split at h
  · injection h with h; exact Or.inl h.symm
  · split at h
    · cases h
    · split at h
      · cases h
      · split at h
        · injection h with h; exact Or.inl h.symm
        · exact Or.inr h

theorem execBlock_ok {s s1 : State} {i tid : Nat} (h : execBlock s i tid = some s1) :
    ∃ bi, i ∈ s.calls ∧ s.statsList[i]? = some bi ∧
      s1 = { s with
              statsList := s.statsList.set i { bi with _counter := docount bi._counter tid } } := by
  unfold execBlock at h
  by_cases hc : i ∈ s.calls
  · rw [if_pos hc] at h
    cases hb : s.statsList[i]? with
    | none => rw [hb] at h; cases h
    | some bi =>
      rw [hb] at h
      injection h with h
      exact ⟨bi, hc, rfl, h.symm⟩
  · rw [if_neg hc] at h; cases h

theorem execBlock_WellFormed {s s1 : State} {i tid : Nat} (hw : WellFormed s)
    (h : execBlock s i tid = some s1) : WellFormed s1 := by
  obtain ⟨bi, _, hbi, rfl⟩ := execBlock_ok h
  obtain ⟨h1, h2, h3, h4⟩ := hw
  have hmem : bi ∈ s.statsList := List.getElem?_mem hbi
  refine ⟨h1, h2, ?_, ?_⟩
  · intro b hb
    rcases List.mem_or_eq_of_mem_set hb with hold | hnew
    · exact h3 b hold
    · rw [hnew]
      obtain ⟨a1, a2, a3⟩ := h3 bi hmem
      exact ⟨a1, a2, by simp only [docount_length]; exact a3⟩
  · intro k hk
    simp only [List.length_set]
    exact h4 k hk

theorem ComputeGlobalStats_WellFormed {s : State} (hw : WellFormed s) :
    WellFormed (ComputeGlobalStats s) := by
  obtain ⟨h1, h2, h3, h4⟩ := hw
  exact ⟨h1, ComputeGlobalStats_length s h2, h3, h4⟩

theorem step_WellFormed {s s1 : State} {e : Event} (hw : WellFormed s)
    (h : step s e = some s1) : WellFormed s1 := by
  cases e with
  | threadStart threadid =>
    simp only [step] at h
    cases hr : ThreadStart s threadid with
    | error f => rw [hr] at h; cases h
    | ok s2 =>
      rw [hr] at h
      simp only [Except.toOption] at h
      injection h with h
      subst h
      obtain ⟨hle, rfl⟩ := ThreadStart_ok hr
      exact ⟨hle, hw.2.1, hw.2.2.1, hw.2.2.2⟩
  | trace t =>
    simp only [step] at h
    cases hr : Trace s t with
    | error f => rw [hr] at h; cases h
    | ok s2 =>
      rw [hr] at h
      simp only [Except.toOption] at h
      injection h with h
      subst h
      rcases Trace_ok hr with heq | hloop
      · rw [heq]; exact hw
      · exact Trace_loop_WellFormed t.bbls hw hloop
  | exec i tid => exact execBlock_WellFormed hw h
  | computeGlobalStats =>
    simp only [step] at h
    injection h with h
    rw [← h]
    exact ComputeGlobalStats_WellFormed hw

theorem run_WellFormed (events : List Event) {s s1 : State} (hw : WellFormed s)
    (h : run s events = some s1) : WellFormed s1 := by
  induction events generalizing s with
  | nil =>
    simp only [run] at h
    injection h with h
    rw [← h]; exact hw
  | cons e rest ih =>
    cases hs : step s e with
    | none => simp only [run, hs] at h; cases h
    | some s2 =>
      simp only [run, hs] at h
      exact ih (step_WellFormed hw hs) h

theorem Reachable_WellFormed {s : State} (h : Reachable s) : WellFormed s := by
  obtain ⟨maxThreads, noSharedLibs, events, hrun⟩ := h
  exact run_WellFormed events (WellFormed_initState maxThreads noSharedLibs) hrun

theorem take_set_replicate_none (m n : Nat) (h : n < m) :
    ((List.replicate m (none : Option Nat)).set n (some 0)).take (n + 1)
      = List.replicate n none ++ [some 0] := by
  apply List.ext_getElem?
  intro i
  rw [List.getElem?_take, List.getElem?_set, List.getElem?_append]
  simp only [List.length_replicate, List.getElem?_replicate]
  by_cases h1 : i < n
  · have h2 : i < n + 1 := by omega
    have h3 : ¬ n = i := by omega
    have h4 : i < m := by omega
    simp [h1, h2, h3, h4]
  · by_cases h2 : i = n
    · subst h2
      simp [h]
    · have h3 : ¬ i < n + 1 := by omega
      have h4 : ¬ n = i := fun hh => h2 hh.symm
      simp [h1, h3]
      omega

set_option maxRecDepth 20000 in
theorem sampleState_run : run (initState 2 false) sampleEvents = some sampleState := by
  rfl

theorem sampleState_Reachable : Reachable sampleState :=
  ⟨2, false, sampleEvents, sampleState_run⟩

theorem step_frame {s s1 : State} {e : Event} (h : step s e = some s1) :
    s1.MaxNumThreads = s.MaxNumThreads ∧ s1.KnobNoSharedLibs = s.KnobNoSharedLibs ∧
      ((∀ threadid, e ≠ Event.threadStart threadid) → s1.numThreads = s.numThreads) := by
  cases e with
  | threadStart threadid =>
    simp only [step] at h
    cases hr : ThreadStart s threadid with
    | error f => rw [hr] at h; cases h
    | ok s2 =>
      rw [hr] at h
      simp only [Except.toOption] at h
      injection h with h
      subst h
      obtain ⟨_, rfl⟩ := ThreadStart_ok hr
      exact ⟨rfl, rfl, fun hne => absurd rfl (hne threadid)⟩
  | trace t =>
    simp only [step] at h
    cases hr : Trace s t with
    | error f => rw [hr] at h; cases h
    | ok s2 =>
      rw [hr] at h
      simp only [Except.toOption] at h
      injection h with h
      subst h
      rcases Trace_ok hr with heq | hloop
      · rw [heq]; exact ⟨rfl, rfl, fun _ => rfl⟩
      · obtain ⟨a1, a2, a3, _⟩ := Trace_loop_frame t.bbls hloop
        exact ⟨a2, a3, fun _ => a1⟩
  | exec i tid =>
    obtain ⟨bi, _, _, rfl⟩ := execBlock_ok h
    exact ⟨rfl, rfl, fun _ => rfl⟩
  | computeGlobalStats =>
    simp only [step] at h
    injection h with h
    rw [← h]
    exact ⟨rfl, rfl, fun _ => rfl⟩

theorem ThreadStart_below (s : State) (threadid : Nat) (h : s.numThreads < s.MaxNumThreads)
    (hmax : s.MaxNumThreads < UINT32_MOD) :
    ThreadStart s threadid = .ok { s with numThreads := s.numThreads + 1 } := by
  have hmod : (s.numThreads + 1) % UINT32_MOD = s.numThreads + 1 :=
    Nat.mod_eq_of_lt (by omega)
  unfold ThreadStart
  simp only [hmod]
  rw [if_pos (by omega)]

theorem ThreadStart_at_bound (s : State) (threadid : Nat) (h : s.numThreads = s.MaxNumThreads)
    (hmax : s.MaxNumThreads + 1 < UINT32_MOD) :
    ThreadStart s threadid = .error Fatal.assertThreads := by
  have hmod : (s.numThreads + 1) % UINT32_MOD = s.numThreads + 1 :=
    Nat.mod_eq_of_lt (by omega)
  unfold ThreadStart
  simp only [hmod]
  rw [if_neg (by omega)]

theorem startThreads_ok (s : State) (k : Nat) (h0 : s.numThreads = 0)
    (hk : k ≤ s.MaxNumThreads) (hmax : s.MaxNumThreads < UINT32_MOD) :
    startThreads s k = .ok { s with numThreads := k } := by
  induction k with
  | zero =>
    simp only [startThreads]
    rw [← h0]
  | succ j ih =>
    simp only [startThreads, ih (by omega)]
    exact ThreadStart_below _ j (by show j < s.MaxNumThreads; omega) hmax

theorem foldl_add_mod (f : Nat → Nat) (m : Nat) (l : List Nat) (a : Nat) (ha : a < m) :
    l.foldl (fun total i => (total + f i) % m) a = (a + (l.map f).sum) % m := by
  induction l generalizing a with
  | nil => simp only [List.foldl_nil, List.map_nil, List.sum_nil, Nat.add_zero, Nat.mod_eq_of_lt ha]
  | cons x rest ih =>
    have hm : 0 < m := by omega
    rw [List.foldl_cons, ih _ (Nat.mod_lt _ hm)]
    simp only [List.map_cons, List.sum_cons]
    rw [Nat.mod_add_mod, Nat.add_assoc]

theorem statsTotal_eq (st : STATS) :
    statsTotal st = ((List.range MAX_BBL_SIZE).map (fun i => st.bblength.getD i 0)).sum
      % COUNTER_MOD := by
  unfold statsTotal
  rw [foldl_add_mod (fun i => st.bblength.getD i 0) COUNTER_MOD _ 0 (by decide), Nat.zero_add]

theorem sum_range_ite (n k a : Nat) (hk : k < n) :
    ((List.range n).map (fun L => if k = L then a else 0)).sum = a := by
  induction n with
  | zero => omega
  | succ m ih =>
    rw [List.range_succ, List.map_append, List.sum_append]
    simp only [List.map_cons, List.map_nil, List.sum_cons, List.sum_nil, Nat.add_zero]
    by_cases hm : k = m
    · subst hm
      have hz : ((List.range k).map (fun L => if k = L then a else 0)).sum = 0 := by
        apply List.sum_eq_zero
        intro x hx
        rcases List.mem_map.mp hx with ⟨L, hL, rfl⟩
        have : L < k := List.mem_range.mp hL
        rw [if_neg (by omega)]
      rw [hz]
      simp
    · rw [ih (by omega), if_neg hm, Nat.add_zero]

/-- Summing the buckets of descriptors whose sizes are all within the
histogram counts every descriptor once. -/
theorem sum_buckets_eq (f : BBLSTATS → Nat) (reg : List BBLSTATS)
    (hsize : ∀ bi ∈ reg, 0 ≤ bi._size ∧ bi._size < (MAX_BBL_SIZE : Int)) :
    ((List.range MAX_BBL_SIZE).map
      (fun L : Nat => ((reg.filter (fun bi => decide (bi._size = (L : Int)))).map f).sum)).sum
      = (reg.map f).sum := by
  induction reg with
  | nil => simp
  | cons bi rest ih =>
    obtain ⟨h0, h1⟩ := hsize bi (List.mem_cons_self _ _)
    have hrest := ih (fun b hb => hsize b (List.mem_cons_of_mem _ hb))
    have hfun : (fun L : Nat => (((bi :: rest).filter (fun b => decide (b._size = (L : Int)))).map f).sum)
        = (fun L : Nat => (if bi._size.toNat = L then f bi else 0)
            + ((rest.filter (fun b => decide (b._size = (L : Int)))).map f).sum) := by
      funext L
      rw [List.filter_cons]
      by_cases hL : bi._size = (L : Int)
      · have : bi._size.toNat = L := by omega
        simp [hL]
      · have : ¬ bi._size.toNat = L := by omega
        simp [hL, this]
    rw [hfun, List.sum_map_add, hrest, sum_range_ite _ _ _ (by omega)]
    simp

theorem Fini_total_eq (s : State) (hprior : s.GlobalStats.bblength.length = MAX_BBL_SIZE)
    (hsize : ∀ bi ∈ s.statsList, 0 ≤ bi._size ∧ bi._size < (MAX_BBL_SIZE : Int)) :
    Fini_total s = counterSum s.statsList s.numThreads % COUNTER_MOD := by
  unfold Fini_total counterSum
  rw [statsTotal_eq]
  have hmap : (List.range MAX_BBL_SIZE).map
        (fun i => (ComputeGlobalStats s).GlobalStats.bblength.getD i 0)
      = (List.range MAX_BBL_SIZE).map (fun L : Nat =>
          ((s.statsList.filter (fun bi => decide (bi._size = (L : Int)))).map
            (threadSum s.numThreads)).sum % COUNTER_MOD) := by
    apply List.map_congr_left
    intro L hL
    exact ComputeGlobalStats_getD s hprior L (List.mem_range.mp hL)
  rw [hmap, sum_map_mod, sum_buckets_eq _ _ hsize]

theorem sum_getD_range (c : List Nat) (n : Nat) (h : ∀ j, n ≤ j → c.getD j 0 = 0) :
    ((List.range n).map (fun j => c.getD j 0)).sum = c.sum := by
  induction c generalizing n with
  | nil =>
    simp only [List.sum_nil]
    apply List.sum_eq_zero
    intro x hx
    rcases List.mem_map.mp hx with ⟨j, _, rfl⟩
    rfl
  | cons a rest ih =>
    cases n with
    | zero =>
      have ha : a = 0 := h 0 (Nat.le_refl _)
      have hr := ih 0 (fun j _ => h (j + 1) (Nat.zero_le _))
      simp only [List.range_zero, List.map_nil, List.sum_nil] at hr
      simp only [List.range_zero, List.map_nil, List.sum_nil, List.sum_cons, ← hr, ha,
        Nat.add_zero]
    | succ k =>
      have hr := ih k (fun j hj => h (j + 1) (by omega))
      rw [List.range_succ_eq_map, List.map_cons, List.map_map, List.sum_cons, List.sum_cons]
      have : ((fun j => (a :: rest).getD j 0) ∘ Nat.succ) = (fun j => rest.getD j 0) := by
        funext j
        rfl
      rw [this, hr]
      rfl

theorem counterSum_eq_slotSum (reg : List BBLSTATS) (n : Nat) (h : ZeroAbove n reg) :
    counterSum reg n = slotSum reg := by
  unfold counterSum slotSum
  apply congrArg
  apply List.map_congr_left
  intro bi hbi
  exact sum_getD_range _ _ (h bi hbi)

theorem set_sum (c : List Nat) (i v : Nat) (h : i < c.length) :
    (c.set i v).sum + c.getD i 0 = c.sum + v := by
  induction c generalizing i with
  | nil => cases h
  | cons a rest ih =>
    cases i with
    | zero => simp only [List.set_cons_zero, List.sum_cons, List.getD_cons_zero]; omega
    | succ k =>
      have := ih k (by simpa using h)
      simp only [List.set_cons_succ, List.sum_cons, List.getD_cons_succ]
      omega

theorem getD_le_sum (c : List Nat) (i : Nat) : c.getD i 0 ≤ c.sum := by
  induction c generalizing i with
  | nil => simp
  | cons a rest ih =>
    cases i with
    | zero => simp only [List.getD_cons_zero, List.sum_cons]; omega
    | succ k =>
      have := ih k
      simp only [List.getD_cons_succ, List.sum_cons]
      omega

theorem map_set_sum (f : BBLSTATS → Nat) (reg : List BBLSTATS) (i : Nat) (bi b1 : BBLSTATS)
    (h : reg[i]? = some bi) :
    ((reg.set i b1).map f).sum + f bi = (reg.map f).sum + f b1 := by
  induction reg generalizing i with
  | nil => simp at h
  | cons a rest ih =>
    cases i with
    | zero =>
      simp only [List.getElem?_cons_zero, Option.some.injEq] at h
      subst h
      simp only [List.set_cons_zero, List.map_cons, List.sum_cons]
      omega
    | succ k =>
      simp only [List.getElem?_cons_succ] at h
      have := ih k h
      simp only [List.set_cons_succ, List.map_cons, List.sum_cons]
      omega

theorem le_sum_of_getElem? (f : BBLSTATS → Nat) (reg : List BBLSTATS) (i : Nat) (bi : BBLSTATS)
    (h : reg[i]? = some bi) : f bi ≤ (reg.map f).sum := by
  induction reg generalizing i with
  | nil => simp at h
  | cons a rest ih =>
    cases i with
    | zero =>
      simp only [List.getElem?_cons_zero, Option.some.injEq] at h
      subst h
      simp only [List.map_cons, List.sum_cons]
      omega
    | succ k =>
      simp only [List.getElem?_cons_succ] at h
      have := ih k h
      simp only [List.map_cons, List.sum_cons]
      omega

theorem execBlock_counts {s s1 : State} {i tid n : Nat} (hw : WellFormed s)
    (hn : n ≤ s.MaxNumThreads) (htid : tid < n) (hz : ZeroAbove n s.statsList)
    (hlt : slotSum s.statsList + 1 < COUNTER_MOD) (h : execBlock s i tid = some s1) :
    slotSum s1.statsList = slotSum s.statsList + 1 ∧ ZeroAbove n s1.statsList := by
  obtain ⟨bi, _, hbi, rfl⟩ := execBlock_ok h
  have hmem : bi ∈ s.statsList := List.getElem?_mem hbi
  have hlen : tid < bi._counter.length := by
    rw [(hw.2.2.1 bi hmem).2.2]; omega
  have hle : bi._counter.sum ≤ slotSum s.statsList :=
    le_sum_of_getElem? (fun b => b._counter.sum) _ _ _ hbi
  have hslot : bi._counter.getD tid 0 ≤ bi._counter.sum := getD_le_sum _ _
  have hset := set_sum bi._counter tid ((bi._counter.getD tid 0 + 1) % COUNTER_MOD) hlen
  have hmap : slotSum (s.statsList.set i { bi with _counter := docount bi._counter tid })
      + bi._counter.sum = slotSum s.statsList + (docount bi._counter tid).sum :=
    map_set_sum (fun b => b._counter.sum) s.statsList i bi
      { bi with _counter := docount bi._counter tid } hbi
  constructor
  · show slotSum (s.statsList.set i { bi with _counter := docount bi._counter tid })
      = slotSum s.statsList + 1
    have hmod : (bi._counter.getD tid 0 + 1) % COUNTER_MOD = bi._counter.getD tid 0 + 1 := by
      apply Nat.mod_eq_of_lt
      omega
    have hdo : (docount bi._counter tid).sum
        = (bi._counter.set tid ((bi._counter.getD tid 0 + 1) % COUNTER_MOD)).sum := rfl
    rw [hdo] at hmap
    rw [hmod] at hset hmap
    omega
  · intro b hb j hj
    rcases List.mem_or_eq_of_mem_set hb with hold | hnew
    · exact hz b hold j hj
    · rw [hnew]
      simp only [docount]
      rw [getD_set_nat, if_neg (by omega)]
      exact hz bi hmem j hj

theorem Trace_bbl_counts {s s1 : State} {bbl : BBL} {n : Nat} (hz : ZeroAbove n s.statsList)
    (h : Trace_bbl s bbl = .ok s1) :
    slotSum s1.statsList = slotSum s.statsList ∧ ZeroAbove n s1.statsList := by
  obtain ⟨_, rfl⟩ := Trace_bbl_ok h
  constructor
  · unfold slotSum
    simp only [List.map_append, List.sum_append, List.map_cons, List.map_nil, List.sum_cons,
      List.sum_nil, BBLSTATS.create]
    have : (List.replicate s.MaxNumThreads 0).sum = 0 := by simp
    omega
  · intro b hb j hj
    rcases List.mem_append.mp hb with hold | hnew
    · exact hz b hold j hj
    · rw [List.mem_singleton.mp hnew]
      exact replicate_zero_getD _ _

theorem Trace_loop_counts (bbls : List BBL) {s s1 : State} {n : Nat}
    (hz : ZeroAbove n s.statsList) (h : Trace_loop s bbls = .ok s1) :
    slotSum s1.statsList = slotSum s.statsList ∧ ZeroAbove n s1.statsList := by
  induction bbls generalizing s with
  | nil =>
    simp only [Trace_loop] at h
    injection h with h
    rw [← h]; exact ⟨rfl, hz⟩
  | cons b rest ih =>
    cases hb : Trace_bbl s b with
    | error e => simp only [Trace_loop, hb] at h; cases h
    | ok s2 =>
      simp only [Trace_loop, hb] at h
      obtain ⟨a1, a2⟩ := Trace_bbl_counts hz hb
      obtain ⟨b1, b2⟩ := ih a2 h
      exact ⟨b1.trans a1, b2⟩

/-- Along a run whose executions all use thread indices below `n`, with no
counter overflow, the slots add up to the number of executions. -/
theorem run_counts (n : Nat) (events : List Event) {s s1 : State} (hw : WellFormed s)
    (hn : n ≤ s.MaxNumThreads) (hrun : run s events = some s1)
    (htid : ∀ i tid, Event.exec i tid ∈ events → tid < n)
    (hlt : slotSum s.statsList + execCount events < COUNTER_MOD)
    (hz : ZeroAbove n s.statsList) :
    slotSum s1.statsList = slotSum s.statsList + execCount events ∧
      ZeroAbove n s1.statsList ∧ s1.MaxNumThreads = s.MaxNumThreads := by
  induction events generalizing s with
  | nil =>
    simp only [run] at hrun
    injection hrun with hrun
    rw [← hrun]; exact ⟨rfl, hz, rfl⟩
  | cons e rest ih =>
    cases hs : step s e with
    | none => simp only [run, hs] at hrun; cases hrun
    | some s2 =>
      simp only [run, hs] at hrun
      have hw2 := step_WellFormed hw hs
      have hmax := (step_frame hs).1
      have htid2 : ∀ i tid, Event.exec i tid ∈ rest → tid < n :=
        fun i tid hm => htid i tid (List.mem_cons_of_mem _ hm)
      cases e with
      | exec i tid =>
        simp only [execCount] at hlt
        obtain ⟨a1, a2⟩ := execBlock_counts hw hn (htid i tid (List.mem_cons_self _ _)) hz
          (by omega) hs
        obtain ⟨b1, b2, b3⟩ := ih hw2 (by rw [hmax]; exact hn) hrun htid2 (by omega) a2
        simp only [execCount]
        exact ⟨by omega, b2, b3.trans hmax⟩
      | threadStart threadid =>
        have hst : s2.statsList = s.statsList := by
          simp only [step] at hs
          cases hr : ThreadStart s threadid with
          | error f => rw [hr] at hs; cases hs
          | ok s3 =>
            rw [hr] at hs
            simp only [Except.toOption] at hs
            injection hs with hs
            subst hs
            obtain ⟨_, rfl⟩ := ThreadStart_ok hr
            rfl
        simp only [execCount] at hlt ⊢
        obtain ⟨b1, b2, b3⟩ := ih hw2 (by rw [hmax]; exact hn) hrun htid2
          (by rw [hst]; exact hlt) (by rw [hst]; exact hz)
        exact ⟨by rw [b1, hst], b2, b3.trans hmax⟩
      | trace t =>
        have hst : slotSum s2.statsList = slotSum s.statsList ∧ ZeroAbove n s2.statsList := by
          simp only [step] at hs
          cases hr : Trace s t with
          | error f => rw [hr] at hs; cases hs
          | ok s3 =>
            rw [hr] at hs
            simp only [Except.toOption] at hs
            injection hs with hs
            subst hs
            rcases Trace_ok hr with heq | hloop
            · rw [heq]; exact ⟨rfl, hz⟩
            · exact Trace_loop_counts t.bbls hz hloop
        simp only [execCount] at hlt ⊢
        obtain ⟨b1, b2, b3⟩ := ih hw2 (by rw [hmax]; exact hn) hrun htid2
          (by rw [hst.1]; exact hlt) hst.2
        exact ⟨by rw [b1, hst.1], b2, b3.trans hmax⟩
      | computeGlobalStats =>
        have hst : s2.statsList = s.statsList := by
          simp only [step] at hs
          injection hs with hs
          rw [← hs]
          rfl
        simp only [execCount] at hlt ⊢
        obtain ⟨b1, b2, b3⟩ := ih hw2 (by rw [hmax]; exact hn) hrun htid2
          (by rw [hst]; exact hlt) (by rw [hst]; exact hz)
        exact ⟨by rw [b1, hst], b2, b3.trans hmax⟩

theorem bucketSum_scenarioList_other (L : Nat) (h2 : L ≠ 2) (h5 : L ≠ 5) :
    bucketSum scenarioList 2 L = 0 := by
  have a : ¬ ((2 : Int) = (L : Int)) := by omega
  have b : ¬ ((5 : Int) = (L : Int)) := by omega
  simp [bucketSum, scenarioList, List.filter_cons, a, b]

theorem reportRows_append (a b : List Line) :
    reportRows (a ++ b) = reportRows a ++ reportRows b := by
  induction a with
  | nil => rfl
  | cons x rest ih =>
    cases x with
    | text t => simpa [reportRows] using ih
    | row r => simpa [reportRows] using ih

theorem reportRows_map_row (rows : List Row) : reportRows (rows.map Line.row) = rows := by
  induction rows with
  | nil => rfl
  | cons r rest ih => simp [reportRows, ih]

/-- The data rows of the report of `Fini` are those of its row loop. -/
theorem reportRows_Fini (s : State) :
    reportRows (Fini s).2 =
      Fini_rows (ComputeGlobalStats s).GlobalStats (Fini_total s) := by
  unfold Fini Fini_total
  simp only [reportRows_append, reportRows_map_row]
  simp [reportHeader, reportFooter, reportRows]

theorem mem_Fini_rows (st : STATS) (total : Nat) (r : Row) :
    r ∈ Fini_rows st total ↔
      r.length < MAX_BBL_SIZE ∧ 0 < st.bblength.getD r.length 0 ∧
      r.count = st.bblength.getD r.length 0 ∧
      r.percent = percentOf (st.bblength.getD r.length 0) total := by
  unfold Fini_rows
  simp only [List.mem_map, List.mem_filter, List.mem_range, decide_eq_true_eq]
  constructor
  · rintro ⟨i, ⟨hi, hpos⟩, rfl⟩
    exact ⟨hi, hpos, rfl, rfl⟩
  · rintro ⟨h1, h2, h3, h4⟩
    refine ⟨r.length, ⟨h1, h2⟩, ?_⟩
    cases r
    simp only at h3 h4
    simp only [h3, h4]

theorem Fini_rows_pairwise (st : STATS) (total : Nat) :
    List.Pairwise (fun a b : Row => a.length < b.length) (Fini_rows st total) := by
  unfold Fini_rows
  rw [List.pairwise_map]
  exact List.Pairwise.filter _ (List.pairwise_lt_range _)

theorem statsTotal_eq_bucketTotal (st : STATS) :
    statsTotal st = bucketTotal st % COUNTER_MOD :=
  statsTotal_eq st

theorem le_sum_map_of_mem (f : Nat → Nat) (l : List Nat) (x : Nat) (hx : x ∈ l) :
    f x ≤ (l.map f).sum := by
  induction l with
  | nil => cases hx
  | cons a rest ih =>
    simp only [List.map_cons, List.sum_cons]
    rcases List.mem_cons.mp hx with h | h
    · rw [h]; omega
    · have := ih h
      omega

theorem getD_le_bucketTotal (st : STATS) (L : Nat) (hL : L < MAX_BBL_SIZE) :
    st.bblength.getD L 0 ≤ bucketTotal st :=
  le_sum_map_of_mem (fun i => st.bblength.getD i 0) _ L (List.mem_range.mpr hL)

theorem sum_filter_pos (f : Nat → Nat) (l : List Nat) :
    ((l.filter (fun i => decide (0 < f i))).map f).sum = (l.map f).sum := by
  induction l with
  | nil => rfl
  | cons a rest ih =>
    rw [List.filter_cons]
    by_cases h : 0 < f a
    · simp only [h, decide_True, if_true, List.map_cons, List.sum_cons, ih]
    · have h0 : f a = 0 := by omega
      simp only [h, decide_False, List.map_cons, List.sum_cons, h0, Nat.zero_add]
      exact ih

/-- The counts of the emitted rows add up to the sum of all buckets. -/
theorem Fini_rows_count_sum (st : STATS) (total : Nat) :
    ((Fini_rows st total).map (fun r => r.count)).sum = bucketTotal st := by
  unfold Fini_rows bucketTotal
  rw [List.map_map]
  exact sum_filter_pos (fun i => st.bblength.getD i 0) _

theorem Fini_rows_eq_nil (st : STATS) (total : Nat)
    (h : ∀ L, L < MAX_BBL_SIZE → st.bblength.getD L 0 = 0) : Fini_rows st total = [] := by
  unfold Fini_rows
  rw [List.map_eq_nil_iff, List.filter_eq_nil_iff]
  intro L hL
  have := h L (List.mem_range.mp hL)
  rw [this]
  decide

theorem bucketTotal_eq_zero (st : STATS)
    (h : ∀ L, L < MAX_BBL_SIZE → st.bblength.getD L 0 = 0) : bucketTotal st = 0 := by
  unfold bucketTotal
  apply List.sum_eq_zero
  intro x hx
  rcases List.mem_map.mp hx with ⟨L, hL, rfl⟩
  exact h L (List.mem_range.mp hL)

theorem Fini_lines (s : State) :
    (Fini s).2 = reportHeader ++
      (Fini_rows (ComputeGlobalStats s).GlobalStats (Fini_total s)).map Line.row ++
      reportFooter := rfl

theorem threadSum_eq_zero (n : Nat) (bi : BBLSTATS)
    (h : ∀ thd, thd < n → bi._counter.getD thd 0 = 0) : threadSum n bi = 0 := by
  unfold threadSum
  apply List.sum_eq_zero
  intro x hx
  rcases List.mem_map.mp hx with ⟨thd, ht, rfl⟩
  exact h thd (List.mem_range.mp ht)

theorem bucketSum_eq_zero (reg : List BBLSTATS) (n L : Nat)
    (h : ∀ bi ∈ reg, ∀ thd, thd < n → bi._counter.getD thd 0 = 0) : bucketSum reg n L = 0 := by
  unfold bucketSum
  have : ((reg.filter (fun bi => decide (bi._size = (L : Int)))).map (threadSum n)).sum = 0 := by
    apply List.sum_eq_zero
    intro x hx
    rcases List.mem_map.mp hx with ⟨bi, hbi, rfl⟩
    exact threadSum_eq_zero n bi (h bi (List.mem_filter.mp hbi).1)
  rw [this]
  rfl

/-- Without wrap-around in any single bucket, the buckets add up to the
counters of the registered threads. -/
theorem bucketTotal_eq_counterSum_of_buckets (s : State)
    (hprior : s.GlobalStats.bblength.length = MAX_BBL_SIZE)
    (hsize : ∀ bi ∈ s.statsList, 0 ≤ bi._size ∧ bi._size < (MAX_BBL_SIZE : Int))
    (hlt : ∀ L : Nat, L < MAX_BBL_SIZE →
      ((s.statsList.filter (fun bi => decide (bi._size = (L : Int)))).map
        (threadSum s.numThreads)).sum < COUNTER_MOD) :
    bucketTotal (ComputeGlobalStats s).GlobalStats = counterSum s.statsList s.numThreads := by
  have hsum := sum_buckets_eq (threadSum s.numThreads) s.statsList hsize
  unfold bucketTotal counterSum
  rw [← hsum]
  apply congrArg
  apply List.map_congr_left
  intro L hL
  rw [ComputeGlobalStats_getD s hprior L (List.mem_range.mp hL)]
  unfold bucketSum
  exact Nat.mod_eq_of_lt (hlt L (List.mem_range.mp hL))

/-- Without wrap-around of the sum of all counters, the buckets add up to the
counters of the registered threads. -/
theorem bucketTotal_eq_counterSum (s : State)
    (hprior : s.GlobalStats.bblength.length = MAX_BBL_SIZE)
    (hsize : ∀ bi ∈ s.statsList, 0 ≤ bi._size ∧ bi._size < (MAX_BBL_SIZE : Int))
    (hlt : counterSum s.statsList s.numThreads < COUNTER_MOD) :
    bucketTotal (ComputeGlobalStats s).GlobalStats = counterSum s.statsList s.numThreads := by
  apply bucketTotal_eq_counterSum_of_buckets s hprior hsize
  intro L hL
  have hsum := sum_buckets_eq (threadSum s.numThreads) s.statsList hsize
  have hle := le_sum_map_of_mem
    (fun L : Nat => ((s.statsList.filter (fun bi => decide (bi._size = (L : Int)))).map
      (threadSum s.numThreads)).sum) _ L (List.mem_range.mpr hL)
  rw [hsum] at hle
  unfold counterSum at hlt
  exact Nat.lt_of_le_of_lt hle hlt

theorem halfState_facts :
    halfState.GlobalStats.bblength.length = MAX_BBL_SIZE ∧
    (∀ bi ∈ halfState.statsList, 0 ≤ bi._size ∧ bi._size < (MAX_BBL_SIZE : Int)) :=
  ⟨List.length_replicate _ _, by decide⟩

theorem mem_reportRows_Fini (s : State) (hprior : s.GlobalStats.bblength.length = MAX_BBL_SIZE)
    (L c : Nat) (hL : L < MAX_BBL_SIZE) (hc : bucketSum s.statsList s.numThreads L = c)
    (hpos : 0 < c) :
    Row.mk L c (percentOf c (Fini_total s)) ∈ reportRows (Fini s).2 := by
  have hb : (ComputeGlobalStats s).GlobalStats.bblength.getD L 0 = c :=
    (ComputeGlobalStats_getD s hprior L hL).trans hc
  rw [reportRows_Fini, mem_Fini_rows]
  refine ⟨hL, ?_, ?_, ?_⟩
  · dsimp only
    rw [hb]; exact hpos
  · exact hb.symm
  · dsimp only
    rw [hb]

theorem sum_map_percent (l : List Row) (t : Rat) :
    (l.map (fun r => 100 * (r.count : Rat) / t)).sum
      = 100 * (((l.map (fun r => r.count)).sum : Nat) : Rat) / t := by
  induction l with
  | nil => simp
  | cons r rest ih =>
    simp only [List.map_cons, List.sum_cons, ih]
    push_cast
    ring

theorem percentOf_getD_nonneg (bucket total : Nat) : 0 ≤ (percentOf bucket total).getD 0 := by
  unfold percentOf
  split
  · exact le_refl _
  · simp only [Option.getD_some]
    positivity

theorem overflowState_facts :
    overflowState.GlobalStats.bblength.length = MAX_BBL_SIZE ∧
    (∀ bi ∈ overflowState.statsList, 0 ≤ bi._size ∧ bi._size < (MAX_BBL_SIZE : Int)) :=
  ⟨List.length_replicate _ _, by decide⟩

theorem overflowState_bucketTotal :
    bucketTotal (ComputeGlobalStats overflowState).GlobalStats = 2 ^ 64 + 1 := by
  obtain ⟨hprior, hsize⟩ := overflowState_facts
  rw [bucketTotal_eq_counterSum_of_buckets overflowState hprior hsize]
  · decide
  · intro L _
    show ((overflowList.filter (fun bi => decide (bi._size = (L : Int)))).map
      (threadSum 1)).sum < COUNTER_MOD
    by_cases h1 : L = 1
    · subst h1; decide
    · by_cases h2 : L = 2
      · subst h2; decide
      · have a : ¬ ((1 : Int) = (L : Int)) := by omega
        have b : ¬ ((2 : Int) = (L : Int)) := by omega
        simp [overflowList, List.filter_cons, a, b, COUNTER_MOD]

theorem Trace_bbl_accept (s : State) (bbl : BBL) (h : bbl.length + 1 < MAX_BBL_SIZE) :
    Trace_bbl s bbl = .ok { s with
      calls := s.calls ++ [s.statsList.length]
      statsList := s.statsList ++ [descriptorOf s.MaxNumThreads bbl] } := by
  rw [Trace_bbl_eq, if_pos h, take_set_replicate_none _ _ (by omega)]
  rfl

/-- The block loop of `Trace` on blocks that are all accepted. -/
theorem Trace_loop_accept (bbls : List BBL) (s : State)
    (h : ∀ bbl ∈ bbls, bbl.length + 1 < MAX_BBL_SIZE) :
    Trace_loop s bbls = .ok { s with
      calls := s.calls ++ List.range' s.statsList.length bbls.length
      statsList := s.statsList ++ bbls.map (descriptorOf s.MaxNumThreads) } := by
  induction bbls generalizing s with
  | nil => simp [Trace_loop]
  | cons b rest ih =>
    have hb := Trace_bbl_accept s b (h b (List.mem_cons_self _ _))
    simp only [Trace_loop, hb]
    rw [ih _ (fun x hx => h x (List.mem_cons_of_mem _ hx))]
    simp only [List.length_append, List.length_singleton, List.length_cons, List.map_cons,
      List.append_assoc, List.singleton_append, List.range'_succ, List.length_nil,
      Nat.zero_add]

/-- What `Trace` does with a trace that passes its checks and its filter. -/
theorem Trace_unfiltered (s : State) (t : TRACE) (hr : t.rtnValid = true)
    (hs : t.secValid = true) (hi : t.imgValid = true)
    (hk : s.KnobNoSharedLibs = false ∨ t.imgType ≠ IMG_TYPE.SHAREDLIB) :
    Trace s t = Trace_loop s t.bbls := by
  unfold Trace
  have hf : ¬ ((s.KnobNoSharedLibs && (t.rtnValid && t.secValid && t.imgValid)
      && decide (t.imgType = IMG_TYPE.SHAREDLIB)) = true) := by
    simp only [hr, hs, hi, Bool.and_true, Bool.and_eq_true, decide_eq_true_eq, not_and]
    intro hk1 hk2
    rcases hk with hk | hk
    · rw [hk] at hk1; cases hk1
    · exact hk hk2
  rw [if_neg hf]
  simp [hr, hs, hi]

theorem bucketSum_perm {reg1 reg2 : List BBLSTATS} (h : reg1.Perm reg2) (n L : Nat) :
    bucketSum reg1 n L = bucketSum reg2 n L := by
  unfold bucketSum
  rw [((h.filter _).map _).sum_eq]

theorem list_eq_of_getD {a b : List Nat} {n : Nat} (ha : a.length = n) (hb : b.length = n)
    (h : ∀ L, L < n → a.getD L 0 = b.getD L 0) : a = b := by
  apply List.ext_getElem?
  intro L
  by_cases hL : L < n
  · rw [getElem?_of_getD (by rw [ha]; exact hL) (h L hL),
      getElem?_of_getD (by rw [hb]; exact hL) rfl]
  · rw [List.getElem?_eq_none (by omega), List.getElem?_eq_none (by omega)]

theorem ThreadStats_perm {reg1 reg2 : List BBLSTATS} (h : reg1.Perm reg2) (thd : Nat) :
    ThreadStats reg1 thd = ThreadStats reg2 thd := by
  have hl : (ThreadStats reg1 thd).bblength = (ThreadStats reg2 thd).bblength := by
    apply list_eq_of_getD (ThreadStats_length reg1 thd) (ThreadStats_length reg2 thd)
    intro L hL
    rw [ThreadStats_getD reg1 thd L hL, ThreadStats_getD reg2 thd L hL,
      ((h.filter _).map _).sum_eq]
  cases h1 : ThreadStats reg1 thd
  cases h2 : ThreadStats reg2 thd
  rw [h1, h2] at hl
  simp only at hl
  rw [hl]

set_option maxRecDepth 20000 in
theorem droppedState_run : run (initState 2 false) droppedEvents = some droppedState := by
  rfl

/-! ## The properties -/

/-- C1. For every registry whose descriptors all have `0 <= _size < MAX_BBL_SIZE`,
every `numThreads` and every prior content of `GlobalStats`, after
`ComputeGlobalStats` the histogram still has `MAX_BBL_SIZE` buckets, every
descriptor's `_size` indexes one of them, and each bucket `L` in
`[0, MAX_BBL_SIZE)` holds the sum, in 64-bit unsigned arithmetic, of
`_counter[thd]` over every descriptor with `_size == L` and every
`thd < numThreads`; the registry and `numThreads` are as before. -/
theorem ComputeGlobalStats_bucket_sum (s : State)
    (hprior : s.GlobalStats.bblength.length = MAX_BBL_SIZE)
    (hsize : ∀ bi ∈ s.statsList, 0 ≤ bi._size ∧ bi._size < (MAX_BBL_SIZE : Int)) :
    (ComputeGlobalStats s).GlobalStats.bblength.length = MAX_BBL_SIZE ∧
    (∀ bi ∈ s.statsList,
      bi._size.toNat < (ComputeGlobalStats s).GlobalStats.bblength.length) ∧
    (∀ L, L < MAX_BBL_SIZE →
      (ComputeGlobalStats s).GlobalStats.bblength[L]? =
        some (bucketSum s.statsList s.numThreads L)) ∧
    (ComputeGlobalStats s).statsList = s.statsList ∧
    (ComputeGlobalStats s).numThreads = s.numThreads := by
  have hlen := ComputeGlobalStats_length s hprior
  refine ⟨hlen, ?_, ?_, rfl, rfl⟩
  · intro bi hbi
    obtain ⟨h0, h1⟩ := hsize bi hbi
    rw [hlen]
    omega
  · intro L hL
    exact getElem?_of_getD (by rw [hlen]; exact hL) (ComputeGlobalStats_getD s hprior L hL)

theorem ComputeGlobalStats_bucket_sum_witness :
    scenarioState.GlobalStats.bblength.length = MAX_BBL_SIZE ∧
    (∀ bi ∈ scenarioState.statsList, 0 ≤ bi._size ∧ bi._size < (MAX_BBL_SIZE : Int)) ∧
    (ComputeGlobalStats scenarioState).GlobalStats.bblength[2]? = some 20 ∧
    (ComputeGlobalStats scenarioState).GlobalStats.bblength[5]? = some 1 ∧
    (∀ L, L < MAX_BBL_SIZE → L ≠ 2 → L ≠ 5 →
      (ComputeGlobalStats scenarioState).GlobalStats.bblength[L]? = some 0) :=
  have hprior : scenarioState.GlobalStats.bblength.length = MAX_BBL_SIZE :=
    List.length_replicate _ _
  have hsize : ∀ bi ∈ scenarioState.statsList,
      0 ≤ bi._size ∧ bi._size < (MAX_BBL_SIZE : Int) := by decide
  have h := ComputeGlobalStats_bucket_sum scenarioState hprior hsize
  ⟨hprior, hsize, h.2.2.1 2 (by decide), h.2.2.1 5 (by decide),
    fun L hL h2 h5 => (h.2.2.1 L hL).trans
      (congrArg some (bucketSum_scenarioList_other L h2 h5))⟩

/-- C2. Conservation.  For every run from the initial state made of thread
starts, traces, block executions and `ComputeGlobalStats` steps, none of which
ends the process, in which every execution carries a thread index below the
final `numThreads` and the executions number fewer than `2 ^ 64`: the grand
total `Fini` computes equals the sum of `_counter[thd]` over all descriptors
and all `thd < numThreads`, and both equal the number of executions. -/
theorem conservation (maxThreads : Nat) (noSharedLibs : Bool) (events : List Event) (s : State)
    (hrun : run (initState maxThreads noSharedLibs) events = some s)
    (htid : ∀ i tid, Event.exec i tid ∈ events → tid < s.numThreads)
    (hcount : execCount events < COUNTER_MOD) :
    Fini_total s = counterSum s.statsList s.numThreads ∧
    counterSum s.statsList s.numThreads = execCount events := by
  have hw0 := WellFormed_initState maxThreads noSharedLibs
  have hw := run_WellFormed events hw0 hrun
  have hz0 : ZeroAbove s.numThreads (initState maxThreads noSharedLibs).statsList := by
    intro bi hbi; cases hbi
  have hmaxeq : s.MaxNumThreads = (initState maxThreads noSharedLibs).MaxNumThreads := by
    clear htid hcount hz0 hw
    generalize initState maxThreads noSharedLibs = s0 at hrun hw0
    induction events generalizing s0 with
    | nil =>
      simp only [run] at hrun
      injection hrun with hrun
      rw [hrun]
    | cons e rest ih =>
      cases hs : step s0 e with
      | none => simp only [run, hs] at hrun; cases hrun
      | some s2 =>
        simp only [run, hs] at hrun
        rw [ih s2 hrun (step_WellFormed hw0 hs), (step_frame hs).1]
  have hsum0 : slotSum (initState maxThreads noSharedLibs).statsList = 0 := rfl
  obtain ⟨h1, h2, _⟩ := run_counts s.numThreads events hw0 (by rw [← hmaxeq]; exact hw.1) hrun
    htid (by rw [hsum0, Nat.zero_add]; exact hcount) hz0
  have hcs : counterSum s.statsList s.numThreads = execCount events := by
    rw [counterSum_eq_slotSum _ _ h2, h1, hsum0, Nat.zero_add]
  have hMM : MAX_BBL_SIZE = 1000 := rfl
  refine ⟨?_, hcs⟩
  rw [Fini_total_eq s hw.2.1 (fun bi hbi => by
    obtain ⟨a1, a2, _⟩ := hw.2.2.1 bi hbi
    exact ⟨a1, by omega⟩)]
  rw [hcs]
  exact Nat.mod_eq_of_lt hcount

theorem conservation_witness :
    run (initState 2 false) sampleEvents = some sampleState ∧
    (∀ i tid, Event.exec i tid ∈ sampleEvents → tid < sampleState.numThreads) ∧
    execCount sampleEvents < COUNTER_MOD ∧
    Fini_total sampleState = 3 ∧
    counterSum sampleState.statsList sampleState.numThreads = 3 ∧
    execCount sampleEvents = 3 := by
  have htid : ∀ i tid, Event.exec i tid ∈ sampleEvents → tid < sampleState.numThreads := by
    intro i tid hm
    simp [sampleEvents] at hm
    have : tid = 0 := by
      rcases hm with h | h | h
      · exact h.2
      · exact h.2
      · exact h.2
    rw [this]
    decide
  have hcount : execCount sampleEvents < COUNTER_MOD := by decide
  have h := conservation 2 false sampleEvents sampleState sampleState_run htid hcount
  have h3 : execCount sampleEvents = 3 := rfl
  exact ⟨sampleState_run, htid, hcount, by rw [h.1, h.2, h3], by rw [h.2, h3], h3⟩

/-- C3. For every registry, every `numThreads` and every length `L` in
`[0, MAX_BBL_SIZE)`, the bucket `GlobalStats.bblength[L]` that
`ComputeGlobalStats` produces is the sum, in 64-bit unsigned arithmetic, over
the threads `thd < numThreads` of the bucket `ThreadStats.bblength[L]` that
`EmitPerThreadStats` computes for `thd`. -/
theorem global_bucket_eq_sum_of_thread_buckets (s : State)
    (hprior : s.GlobalStats.bblength.length = MAX_BBL_SIZE) (L : Nat) (hL : L < MAX_BBL_SIZE) :
    (EmitPerThreadStats s).map (fun r => r.1) = List.range s.numThreads ∧
    (ComputeGlobalStats s).GlobalStats.bblength[L]? =
      some (((EmitPerThreadStats s).map (fun r => r.2.1.bblength.getD L 0)).sum % COUNTER_MOD) := by
  constructor
  · unfold EmitPerThreadStats
    rw [List.map_map]
    exact List.map_id _
  · apply getElem?_of_getD (by rw [ComputeGlobalStats_length s hprior]; exact hL)
    rw [ComputeGlobalStats_getD s hprior L hL, bucketSum_eq_sum_ThreadStats _ _ _ hL]
    unfold EmitPerThreadStats
    rw [List.map_map]
    rfl

theorem global_bucket_eq_sum_of_thread_buckets_witness :
    scenarioState.GlobalStats.bblength.length = MAX_BBL_SIZE ∧ 2 < MAX_BBL_SIZE ∧
    (EmitPerThreadStats scenarioState).map (fun r => r.1) = [0, 1] ∧
    (ComputeGlobalStats scenarioState).GlobalStats.bblength[2]? =
      some (((EmitPerThreadStats scenarioState).map
        (fun r => r.2.1.bblength.getD 2 0)).sum % COUNTER_MOD) ∧
    (ThreadStats scenarioState.statsList 0).bblength.getD 2 0 = 15 ∧
    (ThreadStats scenarioState.statsList 1).bblength.getD 2 0 = 5 ∧
    (ComputeGlobalStats scenarioState).GlobalStats.bblength.getD 2 0 = 20 :=
  have hprior : scenarioState.GlobalStats.bblength.length = MAX_BBL_SIZE :=
    List.length_replicate _ _
  have h := global_bucket_eq_sum_of_thread_buckets scenarioState hprior 2 (by decide)
  ⟨hprior, by decide, h.1, h.2,
    ThreadStats_getD scenarioState.statsList 0 2 (by decide),
    ThreadStats_getD scenarioState.statsList 1 2 (by decide),
    ComputeGlobalStats_getD scenarioState hprior 2 (by decide)⟩

/-- C4. For a descriptor at position `i` of the registry whose counter array
has `MaxNumThreads` slots, and `tid < MaxNumThreads`, the execution callback
`docount(counter, tid)` puts `counter[tid] + 1` (modulo `2 ^ 64`) in slot `tid`
and leaves every other slot of that array, every other descriptor, the
`_size` and `_stats` of every descriptor, the length and order of the
registry, `numThreads` and all other globals as they were. -/
theorem docount_frame (s : State) (i tid : Nat) (bi : BBLSTATS)
    (hcall : i ∈ s.calls) (hbi : s.statsList[i]? = some bi)
    (hlen : bi._counter.length = s.MaxNumThreads) (htid : tid < s.MaxNumThreads) :
    ∃ s1, execBlock s i tid = some s1 ∧
      (docount bi._counter tid).length = s.MaxNumThreads ∧
      (docount bi._counter tid)[tid]? = some ((bi._counter.getD tid 0 + 1) % COUNTER_MOD) ∧
      (∀ j, j ≠ tid → (docount bi._counter tid)[j]? = bi._counter[j]?) ∧
      s1.statsList[i]? = some { bi with _counter := docount bi._counter tid } ∧
      (∀ k, k ≠ i → s1.statsList[k]? = s.statsList[k]?) ∧
      s1.statsList.length = s.statsList.length ∧
      s1.statsList.map (fun b => b._size) = s.statsList.map (fun b => b._size) ∧
      s1.statsList.map (fun b => b._stats) = s.statsList.map (fun b => b._stats) ∧
      s1.numThreads = s.numThreads ∧ s1.MaxNumThreads = s.MaxNumThreads ∧
      s1.GlobalStats = s.GlobalStats ∧ s1.calls = s.calls ∧
      s1.KnobNoSharedLibs = s.KnobNoSharedLibs := by
  have hi : i < s.statsList.length := by
    rcases List.getElem?_eq_some.mp hbi with ⟨h, _⟩
    exact h
  refine ⟨_, execBlock_eq s i tid bi hcall hbi, ?_, ?_, ?_, ?_, ?_, ?_, ?_, ?_, rfl, rfl, rfl,
    rfl, rfl⟩
  · rw [docount_length, hlen]
  · exact docount_getElem?_self _ _ (by rw [hlen]; exact htid)
  · intro j hj
    exact docount_getElem?_ne _ _ _ hj
  · simp only [List.getElem?_set]
    simp [hi]
  · intro k hk
    simp only [List.getElem?_set]
    simp [Ne.symm hk]
  · simp
  · apply List.ext_getElem?
    intro k
    simp only [List.getElem?_map, List.getElem?_set]
    by_cases hk : i = k
    · subst hk
      simp [hi, hbi]
    · simp [hk]
  · apply List.ext_getElem?
    intro k
    simp only [List.getElem?_map, List.getElem?_set]
    by_cases hk : i = k
    · subst hk
      simp [hi, hbi]
    · simp [hk]

theorem docount_frame_witness :
    ∃ s1, execBlock wrapState 0 1 = some s1 ∧
      (docount [3, 2 ^ 64 - 1] 1).length = 2 ∧
      (docount [3, 2 ^ 64 - 1] 1)[1]? = some 0 ∧
      (docount [3, 2 ^ 64 - 1] 1)[0]? = some 3 ∧
      s1.statsList[0]? = some { _stats := [none, some 0], _size := 1, _counter := [3, 0] } ∧
      s1.statsList.length = 1 ∧
      s1.numThreads = 2 := by
  obtain ⟨s1, h1, h2, h3, h4, h5, _, h7, _, _, h10, _⟩ :=
    docount_frame wrapState 0 1
      { _stats := [none, some 0], _size := 1, _counter := [3, 2 ^ 64 - 1] }
      (by decide) rfl rfl (by decide)
  exact ⟨s1, h1, h2, h3, h4 0 (by decide), h5, h7, h10⟩

/-- C5 fails at a block of 999 instructions: 999 is below `MAX_BBL_SIZE`,
`RecordLength` returns 1000 without exiting, and `ASSERTX(count < MAX_BBL_SIZE)`
in `Trace` then fails. -/
theorem planner_fatal_at_999 :
    (List.replicate 999 (INS.mk 0)).length < MAX_BBL_SIZE ∧
    (∃ buffer, RecordLength (List.replicate 999 (INS.mk 0))
        (List.replicate MAX_BBL_SIZE none) MAX_BBL_SIZE = .ok (1000, buffer)) ∧
    Trace_bbl (initState 16 false) (List.replicate 999 (INS.mk 0))
      = .error Fatal.assertCount := by
  refine ⟨by rw [List.length_replicate]; decide, ?_, ?_⟩
  · rw [RecordLength_eq, List.length_replicate]
    exact ⟨_, rfl⟩
  · rw [Trace_bbl_eq, List.length_replicate]
    rfl

/-- C5, amended. A block of `n` instructions with `n + 1 < MAX_BBL_SIZE`
(`n <= 998`) is accepted: `RecordLength` returns `n + 1`, the count with the
terminator, and the body of the loop in `Trace` registers a descriptor of
length `n`.  A block with `n + 1 >= MAX_BBL_SIZE` takes a fatal path. -/
theorem planner_accepts_iff (s : State) (bbl : BBL) :
    (bbl.length + 1 < MAX_BBL_SIZE →
      ∃ buffer s1 bi,
        RecordLength bbl (List.replicate MAX_BBL_SIZE none) MAX_BBL_SIZE
          = .ok (((bbl.length + 1 : Nat) : Int), buffer) ∧
        Trace_bbl s bbl = .ok s1 ∧
        s1.statsList = s.statsList ++ [bi] ∧ bi._size = (bbl.length : Int)) ∧
    (MAX_BBL_SIZE ≤ bbl.length + 1 →
      Trace_bbl s bbl = .error Fatal.assertCount ∨
      Trace_bbl s bbl = .error Fatal.tooManyStats) := by
  have hM : MAX_BBL_SIZE = 1000 := rfl
  constructor
  · intro h
    refine ⟨(List.replicate MAX_BBL_SIZE none).set bbl.length (some 0),
      { s with
          calls := s.calls ++ [s.statsList.length]
          statsList := s.statsList ++
            [BBLSTATS.create s.MaxNumThreads
              (((List.replicate MAX_BBL_SIZE none).set bbl.length (some 0)).take
                (bbl.length + 1))
              (bbl.length : Int)] },
      BBLSTATS.create s.MaxNumThreads
        (((List.replicate MAX_BBL_SIZE none).set bbl.length (some 0)).take (bbl.length + 1))
        (bbl.length : Int), ?_, ?_, rfl, rfl⟩
    · rw [RecordLength_eq, if_pos (by omega)]
    · rw [Trace_bbl_eq, if_pos h]
  · intro h
    rw [Trace_bbl_eq, if_neg (by omega)]
    by_cases h2 : bbl.length ≤ MAX_BBL_SIZE
    · left; rw [if_pos h2]
    · right; rw [if_neg h2]

/-- C6. A block with at least `MAX_BBL_SIZE` instructions takes a fatal path in
the body of the block loop of `Trace`: with exactly `MAX_BBL_SIZE` instructions
`RecordLength` returns `MAX_BBL_SIZE + 1` and `ASSERTX(count < MAX_BBL_SIZE)`
fails, with more `RecordLength` exits.  A trace that contains the block and
reaches the block loop ends the process, so no descriptor for the block is
ever in a registry. -/
theorem oversized_block_fatal (s : State) (bbl : BBL) (h : MAX_BBL_SIZE ≤ bbl.length) :
    (Trace_bbl s bbl = .error Fatal.tooManyStats ∨
      Trace_bbl s bbl = .error Fatal.assertCount) ∧
    (bbl.length = MAX_BBL_SIZE →
      (∃ buffer, RecordLength bbl (List.replicate MAX_BBL_SIZE none) MAX_BBL_SIZE
          = .ok (((MAX_BBL_SIZE + 1 : Nat) : Int), buffer)) ∧
      Trace_bbl s bbl = .error Fatal.assertCount) ∧
    (MAX_BBL_SIZE < bbl.length →
      RecordLength bbl (List.replicate MAX_BBL_SIZE none) MAX_BBL_SIZE
        = .error Fatal.tooManyStats ∧
      Trace_bbl s bbl = .error Fatal.tooManyStats) ∧
    (∀ t : TRACE, t.rtnValid = true →
      (s.KnobNoSharedLibs = false ∨ t.imgType ≠ IMG_TYPE.SHAREDLIB) →
      bbl ∈ t.bbls → ∃ f, Trace s t = .error f) := by
  have hM : MAX_BBL_SIZE = 1000 := rfl
  have hnot : ¬ bbl.length + 1 < MAX_BBL_SIZE := by omega
  refine ⟨?_, ?_, ?_, ?_⟩
  · rw [Trace_bbl_eq, if_neg hnot]
    by_cases h2 : bbl.length ≤ MAX_BBL_SIZE
    · right; rw [if_pos h2]
    · left; rw [if_neg h2]
  · intro he
    refine ⟨⟨(List.replicate MAX_BBL_SIZE none).set bbl.length (some 0), ?_⟩, ?_⟩
    · rw [RecordLength_eq, if_pos (by omega), he]
    · rw [Trace_bbl_eq, if_neg hnot, if_pos (by omega)]
  · intro hgt
    refine ⟨?_, ?_⟩
    · rw [RecordLength_eq, if_neg (by omega)]
    · rw [Trace_bbl_eq, if_neg hnot, if_neg (by omega)]
  · intro t hr hk hmem
    unfold Trace
    simp only [hr, Bool.not_true, Bool.false_eq_true, if_false, Bool.true_and]
    by_cases hs : t.secValid = true
    · by_cases hi : t.imgValid = true
      · have hf : ¬ ((s.KnobNoSharedLibs && (t.secValid && t.imgValid)
            && decide (t.imgType = IMG_TYPE.SHAREDLIB)) = true) := by
          simp only [hs, hi, Bool.and_true, Bool.and_eq_true, decide_eq_true_eq, not_and]
          intro hk1 hk2
          rcases hk with hk | hk
          · rw [hk] at hk1; cases hk1
          · exact hk hk2
        simp only [hs, hi, Bool.not_true, Bool.false_eq_true, if_false]
        simp only [hs, hi] at hf
        rw [if_neg hf]
        exact Trace_loop_fatal t.bbls s bbl hmem (by omega)
      · simp [hs, hi]
    · simp [hs]

theorem oversized_block_fatal_witness :
    MAX_BBL_SIZE ≤ (List.replicate 1000 (INS.mk 0)).length ∧
    Trace_bbl (initState 16 false) (List.replicate 1000 (INS.mk 0))
      = .error Fatal.assertCount ∧
    (∃ f, Trace (initState 16 false)
      { rtnValid := true, secValid := true, imgValid := true, imgType := IMG_TYPE.STATIC,
        bbls := [[INS.mk 0], List.replicate 1000 (INS.mk 0)] } = .error f) :=
  have hlen : MAX_BBL_SIZE ≤ (List.replicate 1000 (INS.mk 0)).length := by
    rw [List.length_replicate]; decide
  have h := oversized_block_fatal (initState 16 false) (List.replicate 1000 (INS.mk 0)) hlen
  ⟨hlen, (h.2.1 (List.length_replicate _ _)).2,
    h.2.2.2 _ rfl (Or.inl rfl) (List.mem_cons_of_mem _ (List.mem_singleton.mpr rfl))⟩

/-- C7. When the body of the block loop of `Trace` accepts a block of `n`
instructions, it appends exactly one descriptor at the end of `statsList`:
its `_size` is `n`, the value `RecordLength` returned minus one, its `_stats`
is the copied buffer ending in the terminator, and its counter array has
`MaxNumThreads` slots, all zero.  The earlier descriptors, their order,
`numThreads` and the other globals are as before; one analysis call is
inserted, for the new descriptor. -/
theorem Trace_bbl_appends (s s1 : State) (bbl : BBL) (h : Trace_bbl s bbl = .ok s1) :
    ∃ bi count buffer,
      RecordLength bbl (List.replicate MAX_BBL_SIZE none) MAX_BBL_SIZE = .ok (count, buffer) ∧
      s1.statsList = s.statsList ++ [bi] ∧
      bi._size = count - 1 ∧
      bi._size = (bbl.length : Int) ∧
      bi._stats = List.replicate bbl.length none ++ [some 0] ∧
      bi._counter.length = s.MaxNumThreads ∧
      (∀ x ∈ bi._counter, x = 0) ∧
      s1.numThreads = s.numThreads ∧
      s1.MaxNumThreads = s.MaxNumThreads ∧
      s1.GlobalStats = s.GlobalStats ∧
      s1.KnobNoSharedLibs = s.KnobNoSharedLibs ∧
      s1.calls = s.calls ++ [s.statsList.length] := by
  obtain ⟨hlt, rfl⟩ := Trace_bbl_ok h
  have hM : MAX_BBL_SIZE = 1000 := rfl
  refine ⟨_, ((bbl.length + 1 : Nat) : Int),
    (List.replicate MAX_BBL_SIZE none).set bbl.length (some 0), ?_, rfl, ?_, rfl, ?_, ?_, ?_,
    rfl, rfl, rfl, rfl, rfl⟩
  · rw [RecordLength_eq, if_pos (by omega)]
  · show (bbl.length : Int) = ((bbl.length + 1 : Nat) : Int) - 1
    omega
  · exact take_set_replicate_none _ _ (by omega)
  · exact List.length_replicate _ _
  · intro x hx
    exact List.eq_of_mem_replicate hx

theorem Trace_bbl_appends_witness :
    Trace_bbl scenarioState [INS.mk 4096, INS.mk 4100] = .ok acceptedState ∧
    ∃ bi count buffer,
      RecordLength [INS.mk 4096, INS.mk 4100] (List.replicate MAX_BBL_SIZE none) MAX_BBL_SIZE
        = .ok (count, buffer) ∧
      acceptedState.statsList = scenarioState.statsList ++ [bi] ∧
      bi._size = count - 1 ∧ bi._size = 2 ∧
      bi._stats = [none, none, some 0] ∧ bi._counter.length = 2 ∧
      acceptedState.numThreads = 2 := by
  have hok : Trace_bbl scenarioState [INS.mk 4096, INS.mk 4100] = .ok acceptedState := rfl
  obtain ⟨bi, count, buffer, h1, h2, h3, h4, h5, h6, _, h8, _⟩ :=
    Trace_bbl_appends scenarioState acceptedState [INS.mk 4096, INS.mk 4100] hok
  exact ⟨hok, bi, count, buffer, h1, h2, h3, h4, h5, h6, h8⟩

/-- C8. In every state reachable from the initial state by thread starts,
traces, block executions and `ComputeGlobalStats` steps that do not end the
process, every descriptor in `statsList` has `0 <= _size < MAX_BBL_SIZE`, so
the bucket index `_size` is within the `MAX_BBL_SIZE` entries of
`GlobalStats.bblength`, before and after `ComputeGlobalStats`, and of the per-thread
histogram of `EmitPerThreadStats`. -/
theorem size_bound_invariant (s : State) (h : Reachable s) :
    ∀ bi ∈ s.statsList,
      0 ≤ bi._size ∧ bi._size < (MAX_BBL_SIZE : Int) ∧
      bi._size.toNat < s.GlobalStats.bblength.length ∧
      bi._size.toNat < (ComputeGlobalStats s).GlobalStats.bblength.length ∧
      ∀ thd, bi._size.toNat < (ThreadStats s.statsList thd).bblength.length := by
  intro bi hbi
  obtain ⟨_, hg, hd, _⟩ := Reachable_WellFormed h
  obtain ⟨h0, h1, _⟩ := hd bi hbi
  have hM : MAX_BBL_SIZE = 1000 := rfl
  refine ⟨h0, by omega, ?_, ?_, ?_⟩
  · rw [hg]; omega
  · rw [ComputeGlobalStats_length s hg]; omega
  · intro thd
    rw [ThreadStats_length]; omega

theorem size_bound_invariant_witness :
    Reachable sampleState ∧
    ∀ bi ∈ sampleState.statsList,
      0 ≤ bi._size ∧ bi._size < (MAX_BBL_SIZE : Int) ∧
      bi._size.toNat < sampleState.GlobalStats.bblength.length ∧
      bi._size.toNat < (ComputeGlobalStats sampleState).GlobalStats.bblength.length ∧
      ∀ thd, bi._size.toNat < (ThreadStats sampleState.statsList thd).bblength.length :=
  ⟨sampleState_Reachable, size_bound_invariant sampleState sampleState_Reachable⟩

/-- C9 fails for the bound `2 ^ 32 - 1`: after that many successful thread
starts `numThreads` is `2 ^ 32 - 1`, and the next `ThreadStart` wraps it to 0
and passes the assertion although `numThreads < MaxNumThreads` did not hold. -/
theorem ThreadStart_wraps_at_uint32_max :
    (initState 4294967295 false).MaxNumThreads = 4294967295 ∧
    startThreads (initState 4294967295 false) 4294967295
      = .ok { initState 4294967295 false with numThreads := 4294967295 } ∧
    ThreadStart { initState 4294967295 false with numThreads := 4294967295 } 4294967295
      = .ok { initState 4294967295 false with numThreads := 0 } ∧
    ¬ ((4294967295 : Nat) < (initState 4294967295 false).MaxNumThreads) := by
  have hmax : (initState 4294967295 false).MaxNumThreads = 4294967295 := by decide
  refine ⟨hmax, ?_, ?_, ?_⟩
  · exact startThreads_ok _ _ rfl (by rw [hmax]) (by rw [hmax]; decide)
  · unfold ThreadStart
    rfl
  · rw [hmax]; decide

/-- C9, amended. With a bound `maxThreads < 2 ^ 32 - 1` and `numThreads = 0`
at the start, each of the first `maxThreads` thread starts succeeds, the `i`-th
taking `numThreads` from `i` to `i + 1`; the next one is fatal.  In a state
with `numThreads <= MaxNumThreads`, `ThreadStart` succeeds if and only if
`numThreads < MaxNumThreads`. -/
theorem ThreadStart_bound (maxThreads : Nat) (noSharedLibs : Bool)
    (hmax : maxThreads + 1 < UINT32_MOD) :
    (∀ i, i < maxThreads →
      startThreads (initState maxThreads noSharedLibs) i
        = .ok { initState maxThreads noSharedLibs with numThreads := i } ∧
      ThreadStart { initState maxThreads noSharedLibs with numThreads := i } i
        = .ok { initState maxThreads noSharedLibs with numThreads := i + 1 }) ∧
    startThreads (initState maxThreads noSharedLibs) maxThreads
      = .ok { initState maxThreads noSharedLibs with numThreads := maxThreads } ∧
    (∀ threadid,
      ThreadStart { initState maxThreads noSharedLibs with numThreads := maxThreads } threadid
        = .error Fatal.assertThreads) ∧
    startThreads (initState maxThreads noSharedLibs) (maxThreads + 1)
      = .error Fatal.assertThreads ∧
    (∀ (s : State) threadid, s.MaxNumThreads = maxThreads → s.numThreads ≤ s.MaxNumThreads →
      ((∃ s1, ThreadStart s threadid = .ok s1) ↔ s.numThreads < s.MaxNumThreads)) := by
  have hM : (initState maxThreads noSharedLibs).MaxNumThreads = maxThreads :=
    Nat.mod_eq_of_lt (by omega)
  have hall : startThreads (initState maxThreads noSharedLibs) maxThreads
      = .ok { initState maxThreads noSharedLibs with numThreads := maxThreads } :=
    startThreads_ok _ _ rfl (by rw [hM]) (by rw [hM]; omega)
  have hlast : ∀ threadid,
      ThreadStart { initState maxThreads noSharedLibs with numThreads := maxThreads } threadid
        = .error Fatal.assertThreads := by
    intro threadid
    refine ThreadStart_at_bound _ _ hM.symm ?_
    show (initState maxThreads noSharedLibs).MaxNumThreads + 1 < _
    rw [hM]
    exact hmax
  refine ⟨?_, hall, hlast, ?_, ?_⟩
  · intro i hi
    refine ⟨startThreads_ok _ _ rfl (by rw [hM]; omega) (by rw [hM]; omega), ?_⟩
    refine ThreadStart_below _ i ?_ ?_
    · show i < (initState maxThreads noSharedLibs).MaxNumThreads
      rw [hM]
      exact hi
    · show (initState maxThreads noSharedLibs).MaxNumThreads < _
      rw [hM]
      omega
  · simp only [startThreads, hall]
    exact hlast maxThreads
  · intro s threadid hs hle
    constructor
    · rintro ⟨s1, h1⟩
      by_contra hnot
      have heq : s.numThreads = s.MaxNumThreads := by omega
      rw [ThreadStart_at_bound s threadid heq (by rw [hs]; exact hmax)] at h1
      cases h1
    · intro hlt
      exact ⟨_, ThreadStart_below s threadid hlt (by rw [hs]; omega)⟩

theorem ThreadStart_bound_witness :
    (16 : Nat) + 1 < UINT32_MOD ∧
    startThreads (initState 16 false) 16 = .ok { initState 16 false with numThreads := 16 } ∧
    startThreads (initState 16 false) 17 = .error Fatal.assertThreads :=
  have hmax : (16 : Nat) + 1 < UINT32_MOD := by decide
  have h := ThreadStart_bound 16 false hmax
  ⟨hmax, h.2.1, h.2.2.2.1⟩

/-- C10. In every state reachable from the initial state by thread starts,
traces, block executions and `ComputeGlobalStats` steps that do not end the
process, `numThreads <= MaxNumThreads`.  A step keeps the bound and
`MaxNumThreads`; a step other than `ThreadStart` keeps `numThreads`; and a
`ThreadStart` whose incremented `numThreads` exceeds `MaxNumThreads` ends the
process and yields no successor state. -/
theorem numThreads_bound_invariant (s : State) (h : Reachable s) :
    s.numThreads ≤ s.MaxNumThreads ∧
    (∀ e s1, step s e = some s1 →
      s1.numThreads ≤ s1.MaxNumThreads ∧ s1.MaxNumThreads = s.MaxNumThreads ∧
      ((∀ threadid, e ≠ Event.threadStart threadid) → s1.numThreads = s.numThreads)) ∧
    (∀ threadid, s.MaxNumThreads < (s.numThreads + 1) % UINT32_MOD →
      ThreadStart s threadid = .error Fatal.assertThreads ∧
      step s (Event.threadStart threadid) = none) := by
  have hw := Reachable_WellFormed h
  refine ⟨hw.1, ?_, ?_⟩
  · intro e s1 hs
    obtain ⟨a1, _, a3⟩ := step_frame hs
    exact ⟨(step_WellFormed hw hs).1, a1, a3⟩
  · intro threadid hlt
    have hr : ThreadStart s threadid = .error Fatal.assertThreads := by
      unfold ThreadStart
      simp only [Nat.not_le.mpr hlt, if_false]
    refine ⟨hr, ?_⟩
    simp only [step, hr, Except.toOption]

theorem numThreads_bound_invariant_witness :
    Reachable sampleState ∧ sampleState.numThreads ≤ sampleState.MaxNumThreads :=
  ⟨sampleState_Reachable, (numThreads_bound_invariant sampleState sampleState_Reachable).1⟩

/-- C11. For every state, the data rows `Fini` writes between the
`### All Threads` line and `# eof` are, in this order, one row
`(L, GlobalStats.bblength[L])` for each `L` in `[0, MAX_BBL_SIZE)` with
`GlobalStats.bblength[L] > 0` after `ComputeGlobalStats`, in strictly
ascending order of `L`, and no other row. -/
theorem Fini_rows_exact (s : State) :
    (Fini s).1 = ComputeGlobalStats s ∧
    (Fini s).2 = reportHeader ++ (reportRows (Fini s).2).map Line.row ++ reportFooter ∧
    (reportRows (Fini s).2).map (fun r => (r.length, r.count)) =
      ((List.range MAX_BBL_SIZE).filter
        (fun L => decide (0 < (ComputeGlobalStats s).GlobalStats.bblength.getD L 0))).map
        (fun L => (L, (ComputeGlobalStats s).GlobalStats.bblength.getD L 0)) ∧
    (∀ L c, (∃ r ∈ reportRows (Fini s).2, r.length = L ∧ r.count = c) ↔
      (L < MAX_BBL_SIZE ∧ 0 < (ComputeGlobalStats s).GlobalStats.bblength.getD L 0 ∧
        c = (ComputeGlobalStats s).GlobalStats.bblength.getD L 0)) ∧
    List.Pairwise (fun a b : Row => a.length < b.length) (reportRows (Fini s).2) := by
  refine ⟨rfl, ?_, ?_, ?_, ?_⟩
  · rw [reportRows_Fini]
    rfl
  · rw [reportRows_Fini]
    unfold Fini_rows
    rw [List.map_map]
    rfl
  · intro L c
    rw [reportRows_Fini]
    generalize (ComputeGlobalStats s).GlobalStats = g
    generalize Fini_total s = total
    constructor
    · rintro ⟨r, hr, rfl, rfl⟩
      obtain ⟨h1, h2, h3, _⟩ := (mem_Fini_rows _ _ r).mp hr
      exact ⟨h1, h2, h3⟩
    · rintro ⟨h1, h2, h3⟩
      refine ⟨Row.mk L c (percentOf (g.bblength.getD L 0) total), ?_, rfl, rfl⟩
      apply (mem_Fini_rows _ _ _).mpr
      exact ⟨h1, h2, h3, rfl⟩
  · rw [reportRows_Fini]
    exact Fini_rows_pairwise _ _

/-- C12 fails when the buckets add up to `2 ^ 64`: with two buckets of
`2 ^ 63` the total `Fini` computes wraps to 0, yet both rows are written, and
their percent column divides by that 0. -/
theorem Fini_zero_total_with_rows :
    Fini_total halfState = 0 ∧
    bucketTotal (ComputeGlobalStats halfState).GlobalStats = 2 ^ 64 ∧
    Row.mk 1 (2 ^ 63) none ∈ reportRows (Fini halfState).2 ∧
    Row.mk 2 (2 ^ 63) none ∈ reportRows (Fini halfState).2 := by
  obtain ⟨hprior, hsize⟩ := halfState_facts
  have htotal : Fini_total halfState = 0 := by
    rw [Fini_total_eq halfState hprior hsize]
    decide
  have hb1 : (ComputeGlobalStats halfState).GlobalStats.bblength.getD 1 0 = 2 ^ 63 :=
    ComputeGlobalStats_getD halfState hprior 1 (by decide)
  have hb2 : (ComputeGlobalStats halfState).GlobalStats.bblength.getD 2 0 = 2 ^ 63 :=
    ComputeGlobalStats_getD halfState hprior 2 (by decide)
  refine ⟨htotal, ?_, ?_, ?_⟩
  · rw [bucketTotal_eq_counterSum_of_buckets halfState hprior hsize]
    · decide
    · intro L _
      show ((halfList.filter (fun bi => decide (bi._size = (L : Int)))).map (threadSum 1)).sum
        < COUNTER_MOD
      by_cases h1 : L = 1
      · subst h1; decide
      · by_cases h2 : L = 2
        · subst h2; decide
        · have a : ¬ ((1 : Int) = (L : Int)) := by omega
          have b : ¬ ((2 : Int) = (L : Int)) := by omega
          simp [halfList, List.filter_cons, a, b, COUNTER_MOD]
  · rw [reportRows_Fini, mem_Fini_rows, htotal]
    refine ⟨by decide, ?_, ?_, ?_⟩
    · show 0 < (ComputeGlobalStats halfState).GlobalStats.bblength.getD 1 0
      rw [hb1]; decide
    · exact hb1.symm
    · show none = percentOf ((ComputeGlobalStats halfState).GlobalStats.bblength.getD 1 0) 0
      rfl
  · rw [reportRows_Fini, mem_Fini_rows, htotal]
    refine ⟨by decide, ?_, ?_, ?_⟩
    · show 0 < (ComputeGlobalStats halfState).GlobalStats.bblength.getD 2 0
      rw [hb2]; decide
    · exact hb2.symm
    · show none = percentOf ((ComputeGlobalStats halfState).GlobalStats.bblength.getD 2 0) 0
      rfl

/-- C12, amended. When the sum of all buckets is below `2 ^ 64`: if the grand
total `Fini` computes is zero, `Fini` writes the header and the footer and no
data row, so the percent column is never evaluated; and every row that is
written has a grand total above zero and a defined percent.  The grand total
is zero, and only header and footer are written, for the empty run and for
every registry whose counters of registered threads are all zero. -/
theorem Fini_zero_total_guard (s : State) :
    (bucketTotal (ComputeGlobalStats s).GlobalStats < COUNTER_MOD →
      (Fini_total s = 0 →
        reportRows (Fini s).2 = [] ∧ (Fini s).2 = reportHeader ++ reportFooter) ∧
      (∀ r ∈ reportRows (Fini s).2,
        0 < Fini_total s ∧
        r.percent = some (100 * (r.count : Rat) / (Fini_total s : Rat)))) ∧
    (s.GlobalStats.bblength.length = MAX_BBL_SIZE →
      (∀ bi ∈ s.statsList, ∀ thd, thd < s.numThreads → bi._counter.getD thd 0 = 0) →
      Fini_total s = 0 ∧ bucketTotal (ComputeGlobalStats s).GlobalStats = 0 ∧
      (Fini s).2 = reportHeader ++ reportFooter) ∧
    (∀ maxThreads noSharedLibs,
      Fini_total (initState maxThreads noSharedLibs) = 0 ∧
      (Fini (initState maxThreads noSharedLibs)).2 = reportHeader ++ reportFooter) := by
  have hzero : ∀ s1 : State, s1.GlobalStats.bblength.length = MAX_BBL_SIZE →
      (∀ bi ∈ s1.statsList, ∀ thd, thd < s1.numThreads → bi._counter.getD thd 0 = 0) →
      Fini_total s1 = 0 ∧ bucketTotal (ComputeGlobalStats s1).GlobalStats = 0 ∧
      (Fini s1).2 = reportHeader ++ reportFooter := by
    intro s1 hprior hz
    have hb : ∀ L, L < MAX_BBL_SIZE →
        (ComputeGlobalStats s1).GlobalStats.bblength.getD L 0 = 0 := by
      intro L hL
      rw [ComputeGlobalStats_getD s1 hprior L hL]
      exact bucketSum_eq_zero _ _ _ hz
    have hbt := bucketTotal_eq_zero _ hb
    refine ⟨?_, hbt, ?_⟩
    · unfold Fini_total
      rw [statsTotal_eq_bucketTotal, hbt]
      rfl
    · rw [Fini_lines, Fini_rows_eq_nil _ _ hb]
      rfl
  refine ⟨?_, hzero s, ?_⟩
  · intro hsum
    have htot : Fini_total s = bucketTotal (ComputeGlobalStats s).GlobalStats := by
      unfold Fini_total
      rw [statsTotal_eq_bucketTotal]
      exact Nat.mod_eq_of_lt hsum
    constructor
    · intro h0
      have hb : ∀ L, L < MAX_BBL_SIZE →
          (ComputeGlobalStats s).GlobalStats.bblength.getD L 0 = 0 := by
        intro L hL
        have := getD_le_bucketTotal (ComputeGlobalStats s).GlobalStats L hL
        omega
      constructor
      · rw [reportRows_Fini]
        exact Fini_rows_eq_nil _ _ hb
      · rw [Fini_lines, Fini_rows_eq_nil _ _ hb]
        rfl
    · intro r hr
      rw [reportRows_Fini] at hr
      obtain ⟨h1, h2, h3, h4⟩ := (mem_Fini_rows _ _ r).mp hr
      have hle := getD_le_bucketTotal (ComputeGlobalStats s).GlobalStats r.length h1
      have hpos : 0 < Fini_total s := by omega
      refine ⟨hpos, ?_⟩
      rw [h4, h3]
      unfold percentOf
      rw [if_neg (by omega)]
  · intro maxThreads noSharedLibs
    obtain ⟨a, _, c⟩ := hzero (initState maxThreads noSharedLibs) (List.length_replicate _ _)
      (by intro bi hbi; cases hbi)
    exact ⟨a, c⟩

theorem Fini_zero_total_guard_witness :
    bucketTotal (ComputeGlobalStats scenarioState).GlobalStats < COUNTER_MOD ∧
    Fini_total scenarioState = 21 ∧
    (∀ r ∈ reportRows (Fini scenarioState).2,
      0 < Fini_total scenarioState ∧
      r.percent = some (100 * (r.count : Rat) / (Fini_total scenarioState : Rat))) ∧
    Row.mk 2 20 (some (2000 / 21)) ∈ reportRows (Fini scenarioState).2 ∧
    Fini_total (initState 16 false) = 0 ∧
    (Fini (initState 16 false)).2 = reportHeader ++ reportFooter := by
  have hprior : scenarioState.GlobalStats.bblength.length = MAX_BBL_SIZE :=
    List.length_replicate _ _
  have hsize : ∀ bi ∈ scenarioState.statsList,
      0 ≤ bi._size ∧ bi._size < (MAX_BBL_SIZE : Int) := by decide
  have hbt : bucketTotal (ComputeGlobalStats scenarioState).GlobalStats = 21 :=
    bucketTotal_eq_counterSum scenarioState hprior hsize (by decide)
  have hsum : bucketTotal (ComputeGlobalStats scenarioState).GlobalStats < COUNTER_MOD := by
    rw [hbt]; decide
  have htotal : Fini_total scenarioState = 21 := by
    rw [Fini_total_eq scenarioState hprior hsize]
    decide
  have hb2 : (ComputeGlobalStats scenarioState).GlobalStats.bblength.getD 2 0 = 20 :=
    ComputeGlobalStats_getD scenarioState hprior 2 (by decide)
  have h := Fini_zero_total_guard scenarioState
  have h0 := (Fini_zero_total_guard (initState 16 false)).2.2 16 false
  refine ⟨hsum, htotal, (h.1 hsum).2, ?_, h0.1, h0.2⟩
  rw [reportRows_Fini, mem_Fini_rows, htotal]
  refine ⟨by decide, ?_, ?_, ?_⟩
  · show 0 < (ComputeGlobalStats scenarioState).GlobalStats.bblength.getD 2 0
    rw [hb2]; decide
  · exact hb2.symm
  · show some (2000 / 21 : Rat)
      = percentOf ((ComputeGlobalStats scenarioState).GlobalStats.bblength.getD 2 0) 21
    rw [hb2]
    unfold percentOf
    rw [if_neg (by decide)]
    norm_num

/-- C13 fails when the buckets add up to `2 ^ 64` or more: with buckets
`2 ^ 63` and `2 ^ 63 + 1` the sum of the buckets is `2 ^ 64 + 1`, the total
`Fini` computes is 1, and the row of length 1 gets the percent
`100 * 2 ^ 63 / 1`, which is not `100 * 2 ^ 63 / (2 ^ 64 + 1)`; the percents
of the rows add up to more than 100. -/
theorem percent_wrong_on_wrapped_total :
    bucketTotal (ComputeGlobalStats overflowState).GlobalStats = 2 ^ 64 + 1 ∧
    Fini_total overflowState = 1 ∧
    Row.mk 1 (2 ^ 63) (some (100 * 2 ^ 63)) ∈ reportRows (Fini overflowState).2 ∧
    (100 * 2 ^ 63 : Rat) ≠ 100 * 2 ^ 63 / (2 ^ 64 + 1) ∧
    100 < ((reportRows (Fini overflowState).2).map (fun r => r.percent.getD 0)).sum := by
  obtain ⟨hprior, hsize⟩ := overflowState_facts
  have htotal : Fini_total overflowState = 1 := by
    rw [Fini_total_eq overflowState hprior hsize]
    decide
  have hmem : Row.mk 1 (2 ^ 63) (some (100 * 2 ^ 63)) ∈ reportRows (Fini overflowState).2 := by
    have h := mem_reportRows_Fini overflowState hprior 1 (2 ^ 63) (by decide) (by decide)
      (by decide)
    have hp : percentOf (2 ^ 63) (Fini_total overflowState) = some (100 * 2 ^ 63) := by
      rw [htotal]
      unfold percentOf
      rw [if_neg (by decide)]
      norm_num
    rw [hp] at h
    exact h
  refine ⟨overflowState_bucketTotal, htotal, hmem, by norm_num, ?_⟩
  have hnonneg : ∀ x ∈ (reportRows (Fini overflowState).2).map (fun r => r.percent.getD 0),
      (0 : Rat) ≤ x := by
    intro x hx
    rcases List.mem_map.mp hx with ⟨r, hr, rfl⟩
    rw [reportRows_Fini] at hr
    rw [((mem_Fini_rows _ _ r).mp hr).2.2.2]
    exact percentOf_getD_nonneg _ _
  have hle := List.single_le_sum hnonneg _
    (List.mem_map.mpr ⟨_, hmem, rfl⟩)
  simp only [Option.getD_some] at hle
  have hbig : (100 : Rat) < 100 * 2 ^ 63 := by norm_num
  exact lt_of_lt_of_le hbig hle

/-- C13, amended. When the sum of all buckets is below `2 ^ 64`, the grand
total `Fini` computes is that sum, every emitted row of length `L` carries
the count `GlobalStats.bblength[L]` and, over exact rational arithmetic, the
percent `100 * GlobalStats.bblength[L] / grandTotal`; hence when the grand
total is above zero the percents of the emitted rows add up to exactly 100. -/
theorem percent_correct (s : State)
    (hsum : bucketTotal (ComputeGlobalStats s).GlobalStats < COUNTER_MOD) :
    Fini_total s = bucketTotal (ComputeGlobalStats s).GlobalStats ∧
    (∀ r ∈ reportRows (Fini s).2,
      r.count = (ComputeGlobalStats s).GlobalStats.bblength.getD r.length 0 ∧
      r.percent = some (100 * (r.count : Rat)
        / (bucketTotal (ComputeGlobalStats s).GlobalStats : Rat))) ∧
    (0 < bucketTotal (ComputeGlobalStats s).GlobalStats →
      ∃ ps : List Rat,
        (reportRows (Fini s).2).map (fun r => r.percent) = ps.map some ∧ ps.sum = 100) := by
  have htot : Fini_total s = bucketTotal (ComputeGlobalStats s).GlobalStats := by
    unfold Fini_total
    rw [statsTotal_eq_bucketTotal]
    exact Nat.mod_eq_of_lt hsum
  have hrow : ∀ r ∈ reportRows (Fini s).2,
      r.count = (ComputeGlobalStats s).GlobalStats.bblength.getD r.length 0 ∧
      r.percent = some (100 * (r.count : Rat)
        / (bucketTotal (ComputeGlobalStats s).GlobalStats : Rat)) := by
    intro r hr
    rw [reportRows_Fini] at hr
    obtain ⟨h1, h2, h3, h4⟩ := (mem_Fini_rows _ _ r).mp hr
    have hle := getD_le_bucketTotal (ComputeGlobalStats s).GlobalStats r.length h1
    refine ⟨h3, ?_⟩
    rw [h4, h3, htot]
    unfold percentOf
    rw [if_neg (by omega)]
  refine ⟨htot, hrow, ?_⟩
  intro hpos
  refine ⟨(reportRows (Fini s).2).map (fun r => 100 * (r.count : Rat)
    / (bucketTotal (ComputeGlobalStats s).GlobalStats : Rat)), ?_, ?_⟩
  · rw [List.map_map]
    apply List.map_congr_left
    intro r hr
    exact (hrow r hr).2
  · rw [sum_map_percent, reportRows_Fini, Fini_rows_count_sum]
    have hne : ((bucketTotal (ComputeGlobalStats s).GlobalStats : Nat) : Rat) ≠ 0 := by
      exact_mod_cast (Nat.pos_iff_ne_zero.mp hpos)
    field_simp

theorem percent_correct_witness :
    bucketTotal (ComputeGlobalStats quarterState).GlobalStats < COUNTER_MOD ∧
    Fini_total quarterState = 4 ∧
    Row.mk 3 3 (some 75) ∈ reportRows (Fini quarterState).2 ∧
    Row.mk 7 1 (some 25) ∈ reportRows (Fini quarterState).2 ∧
    (∃ ps : List Rat,
      (reportRows (Fini quarterState).2).map (fun r => r.percent) = ps.map some ∧
      ps.sum = 100) ∧
    Fini_total scenarioState = 21 ∧
    Row.mk 2 20 (some (2000 / 21)) ∈ reportRows (Fini scenarioState).2 ∧
    Row.mk 5 1 (some (100 / 21)) ∈ reportRows (Fini scenarioState).2 := by
  have hq : quarterState.GlobalStats.bblength.length = MAX_BBL_SIZE :=
    List.length_replicate _ _
  have hqsize : ∀ bi ∈ quarterState.statsList,
      0 ≤ bi._size ∧ bi._size < (MAX_BBL_SIZE : Int) := by decide
  have hqb : bucketTotal (ComputeGlobalStats quarterState).GlobalStats = 4 :=
    bucketTotal_eq_counterSum quarterState hq hqsize (by decide)
  have hqsum : bucketTotal (ComputeGlobalStats quarterState).GlobalStats < COUNTER_MOD := by
    rw [hqb]; decide
  have hs : scenarioState.GlobalStats.bblength.length = MAX_BBL_SIZE :=
    List.length_replicate _ _
  have hssize : ∀ bi ∈ scenarioState.statsList,
      0 ≤ bi._size ∧ bi._size < (MAX_BBL_SIZE : Int) := by decide
  have hsb : bucketTotal (ComputeGlobalStats scenarioState).GlobalStats = 21 :=
    bucketTotal_eq_counterSum scenarioState hs hssize (by decide)
  have hssum : bucketTotal (ComputeGlobalStats scenarioState).GlobalStats < COUNTER_MOD := by
    rw [hsb]; decide
  have h := percent_correct quarterState hqsum
  have h2 := percent_correct scenarioState hssum
  have hqt : Fini_total quarterState = 4 := h.1.trans hqb
  have hst : Fini_total scenarioState = 21 := h2.1.trans hsb
  have p1 : percentOf 3 4 = some 75 := by
    unfold percentOf; rw [if_neg (by decide)]; norm_num
  have p2 : percentOf 1 4 = some 25 := by
    unfold percentOf; rw [if_neg (by decide)]; norm_num
  have p3 : percentOf 20 21 = some (2000 / 21) := by
    unfold percentOf; rw [if_neg (by decide)]; norm_num
  have p4 : percentOf 1 21 = some (100 / 21) := by
    unfold percentOf; rw [if_neg (by decide)]; norm_num
  have m1 := mem_reportRows_Fini quarterState hq 3 3 (by decide) (by decide) (by decide)
  have m2 := mem_reportRows_Fini quarterState hq 7 1 (by decide) (by decide) (by decide)
  have m3 := mem_reportRows_Fini scenarioState hs 2 20 (by decide) (by decide) (by decide)
  have m4 := mem_reportRows_Fini scenarioState hs 5 1 (by decide) (by decide) (by decide)
  rw [hqt, p1] at m1
  rw [hqt, p2] at m2
  rw [hst, p3] at m3
  rw [hst, p4] at m4
  exact ⟨hqsum, hqt, m1, m2, h.2.2 (by rw [hqb]; decide), hst, m3, m4⟩

/-- C14 fails for a shared-library trace with a block of 1001 instructions:
with the option disabled `Trace` ends the process in `RecordLength` and no
descriptor is appended. -/
theorem unfiltered_sharedlib_trace_fatal :
    longSharedLibTrace.rtnValid = true ∧ longSharedLibTrace.secValid = true ∧
    longSharedLibTrace.imgValid = true ∧
    longSharedLibTrace.imgType = IMG_TYPE.SHAREDLIB ∧
    (initState 16 false).KnobNoSharedLibs = false ∧
    Trace (initState 16 false) longSharedLibTrace = .error Fatal.tooManyStats := by
  refine ⟨rfl, rfl, rfl, rfl, rfl, ?_⟩
  rw [Trace_unfiltered _ _ rfl rfl rfl (Or.inl rfl)]
  show Trace_loop (initState 16 false) [List.replicate 1001 (INS.mk 0)] = _
  simp only [Trace_loop, Trace_bbl_eq, List.length_replicate]
  rfl

/-- C14, amended. For a trace whose routine, section and image are valid and
whose image is a shared library: with the option enabled `Trace` returns with
the globals as they were, so no descriptor is added and no call is inserted;
with the option disabled and every block of the trace shorter than
`MAX_BBL_SIZE - 1` instructions, `Trace` appends one descriptor per block, in
the order of the blocks, and inserts one call for each; with the option
disabled and some block of `MAX_BBL_SIZE - 1` instructions or more, `Trace`
ends the process. -/
theorem sharedlib_filter (s : State) (t : TRACE) (hr : t.rtnValid = true)
    (hs : t.secValid = true) (hi : t.imgValid = true)
    (hty : t.imgType = IMG_TYPE.SHAREDLIB) :
    (s.KnobNoSharedLibs = true → Trace s t = .ok s) ∧
    (s.KnobNoSharedLibs = false → (∀ bbl ∈ t.bbls, bbl.length + 1 < MAX_BBL_SIZE) →
      Trace s t = .ok { s with
        calls := s.calls ++ List.range' s.statsList.length t.bbls.length
        statsList := s.statsList ++ t.bbls.map (descriptorOf s.MaxNumThreads) }) ∧
    (s.KnobNoSharedLibs = false → (∃ bbl ∈ t.bbls, MAX_BBL_SIZE ≤ bbl.length + 1) →
      ∃ f, Trace s t = .error f) := by
  refine ⟨?_, ?_, ?_⟩
  · intro hk
    unfold Trace
    simp [hr, hs, hi, hk, hty]
  · intro hk hall
    rw [Trace_unfiltered s t hr hs hi (Or.inl hk)]
    exact Trace_loop_accept t.bbls s hall
  · rintro hk ⟨bbl, hmem, hlen⟩
    rw [Trace_unfiltered s t hr hs hi (Or.inl hk)]
    exact Trace_loop_fatal t.bbls s bbl hmem hlen

theorem sharedlib_filter_witness :
    sharedLibTrace.rtnValid = true ∧ sharedLibTrace.secValid = true ∧
    sharedLibTrace.imgValid = true ∧ sharedLibTrace.imgType = IMG_TYPE.SHAREDLIB ∧
    Trace (initState 16 true) sharedLibTrace = .ok (initState 16 true) ∧
    Trace (initState 2 false) sharedLibTrace = .ok { initState 2 false with
      calls := [0, 1]
      statsList :=
        [ { _stats := [none, none, some 0], _size := 2, _counter := [0, 0] },
          { _stats := [none, some 0], _size := 1, _counter := [0, 0] } ] } :=
  ⟨rfl, rfl, rfl, rfl,
    (sharedlib_filter (initState 16 true) sharedLibTrace rfl rfl rfl rfl).1 rfl,
    (sharedlib_filter (initState 2 false) sharedLibTrace rfl rfl rfl rfl).2.1 rfl
      (by decide)⟩

/-- C15. For two registries that are permutations of each other and the same
`numThreads`, `ComputeGlobalStats` produces the same `GlobalStats` histogram,
and `EmitPerThreadStats` the same histogram and total for every thread. -/
theorem aggregation_perm_invariant (s1 s2 : State)
    (hperm : s1.statsList.Perm s2.statsList) (hn : s1.numThreads = s2.numThreads)
    (h1 : s1.GlobalStats.bblength.length = MAX_BBL_SIZE)
    (h2 : s2.GlobalStats.bblength.length = MAX_BBL_SIZE) :
    (ComputeGlobalStats s1).GlobalStats = (ComputeGlobalStats s2).GlobalStats ∧
    (∀ thd, ThreadStats s1.statsList thd = ThreadStats s2.statsList thd) ∧
    EmitPerThreadStats s1 = EmitPerThreadStats s2 ∧
    Fini_total s1 = Fini_total s2 := by
  have hg : (ComputeGlobalStats s1).GlobalStats = (ComputeGlobalStats s2).GlobalStats := by
    have hl : (ComputeGlobalStats s1).GlobalStats.bblength
        = (ComputeGlobalStats s2).GlobalStats.bblength := by
      apply list_eq_of_getD (ComputeGlobalStats_length s1 h1) (ComputeGlobalStats_length s2 h2)
      intro L hL
      rw [ComputeGlobalStats_getD s1 h1 L hL, ComputeGlobalStats_getD s2 h2 L hL, hn]
      exact bucketSum_perm hperm _ _
    cases ha : (ComputeGlobalStats s1).GlobalStats
    cases hb : (ComputeGlobalStats s2).GlobalStats
    rw [ha, hb] at hl
    simp only at hl
    rw [hl]
  have ht : ∀ thd, ThreadStats s1.statsList thd = ThreadStats s2.statsList thd :=
    fun thd => ThreadStats_perm hperm thd
  refine ⟨hg, ht, ?_, ?_⟩
  · unfold EmitPerThreadStats
    rw [hn]
    apply List.map_congr_left
    intro thd _
    rw [ht thd]
  · unfold Fini_total
    rw [hg]

theorem aggregation_perm_invariant_witness :
    scenarioState.statsList.Perm scenarioReversed.statsList ∧
    scenarioState.statsList ≠ scenarioReversed.statsList ∧
    (ComputeGlobalStats scenarioState).GlobalStats
      = (ComputeGlobalStats scenarioReversed).GlobalStats ∧
    EmitPerThreadStats scenarioState = EmitPerThreadStats scenarioReversed :=
  have hperm : scenarioState.statsList.Perm scenarioReversed.statsList :=
    (List.reverse_perm scenarioList).symm
  have h := aggregation_perm_invariant scenarioState scenarioReversed hperm rfl
    (List.length_replicate _ _) (List.length_replicate _ _)
  ⟨hperm, by decide, h.1, h.2.2.1⟩

/-- C16. A block of exactly `MAX_BBL_SIZE` instructions, with the buffer of
`MAX_BBL_SIZE` entries and `max_stats = MAX_BBL_SIZE` that `Trace` passes:
`RecordLength` does not exit, its loop ends with `count = MAX_BBL_SIZE`, and
the terminator is written at `stats[MAX_BBL_SIZE]`, one past the last entry
of the buffer. -/
theorem RecordLength_terminator_past_buffer :
    (List.replicate MAX_BBL_SIZE (none : Option Nat)).length = MAX_BBL_SIZE ∧
    RecordLength_loop (List.replicate MAX_BBL_SIZE (INS.mk 0)) 0 MAX_BBL_SIZE
      = .ok MAX_BBL_SIZE ∧
    (∃ buffer, RecordLength (List.replicate MAX_BBL_SIZE (INS.mk 0))
        (List.replicate MAX_BBL_SIZE none) MAX_BBL_SIZE
      = .ok (((MAX_BBL_SIZE + 1 : Nat) : Int), buffer)) ∧
    ¬ (MAX_BBL_SIZE < (List.replicate MAX_BBL_SIZE (none : Option Nat)).length) := by
  refine ⟨List.length_replicate _ _, ?_, ?_, ?_⟩
  · have h := RecordLength_loop_ok (List.replicate MAX_BBL_SIZE (INS.mk 0)) 0 MAX_BBL_SIZE
      (by decide) (by rw [List.length_replicate]; omega)
    rw [List.length_replicate, Nat.zero_add] at h
    exact h
  · refine ⟨(List.replicate MAX_BBL_SIZE none).set MAX_BBL_SIZE (some 0), ?_⟩
    rw [RecordLength_eq, List.length_replicate, if_pos (Nat.le_refl _)]
  · rw [List.length_replicate]
    exact Nat.lt_irrefl _

/-- C17. There is a run in which no step ends the process and an execution is
delivered with a thread id `tid` such that `numThreads <= tid < MaxNumThreads`
at aggregation, for which the sum of the histogram `ComputeGlobalStats`
computes is strictly smaller than the number of executions delivered: one
thread start, one block, one execution on thread id 1 give a sum of 0. -/
theorem unregistered_thread_dropped :
    run (initState 2 false) droppedEvents = some droppedState ∧
    Event.exec 0 1 ∈ droppedEvents ∧
    droppedState.numThreads ≤ 1 ∧ 1 < droppedState.MaxNumThreads ∧
    slotSum droppedState.statsList = 1 ∧
    execCount droppedEvents = 1 ∧
    bucketTotal (ComputeGlobalStats droppedState).GlobalStats = 0 ∧
    Fini_total droppedState = 0 ∧
    bucketTotal (ComputeGlobalStats droppedState).GlobalStats < execCount droppedEvents := by
  have hprior : droppedState.GlobalStats.bblength.length = MAX_BBL_SIZE :=
    List.length_replicate _ _
  have hsize : ∀ bi ∈ droppedState.statsList,
      0 ≤ bi._size ∧ bi._size < (MAX_BBL_SIZE : Int) := by decide
  have hb : bucketTotal (ComputeGlobalStats droppedState).GlobalStats = 0 :=
    bucketTotal_eq_counterSum droppedState hprior hsize (by decide)
  have ht : Fini_total droppedState = 0 := by
    rw [Fini_total_eq droppedState hprior hsize]
    decide
  refine ⟨droppedState_run, by decide, by decide, by decide, by decide, rfl, hb, ht, ?_⟩
  rw [hb]
  decide

/-- C18. For a trace whose routine is not valid, whatever the value of the
`no_shared_libs` option, `Trace` returns with the globals as they were: no
descriptor is added, no call is inserted, and the histograms computed
afterwards are those computed before. -/
theorem invalid_routine_trace_ignored (s : State) (t : TRACE) (h : t.rtnValid = false) :
    Trace s t = .ok s ∧ step s (Event.trace t) = some s ∧
    (∀ s1, Trace s t = .ok s1 →
      s1.statsList = s.statsList ∧ s1.calls = s.calls ∧
      ComputeGlobalStats s1 = ComputeGlobalStats s ∧
      EmitPerThreadStats s1 = EmitPerThreadStats s) := by
  have ht : Trace s t = .ok s := by
    unfold Trace
    simp [h]
  refine ⟨ht, ?_, ?_⟩
  · simp only [step, ht, Except.toOption]
  · intro s1 h1
    rw [ht] at h1
    injection h1 with h1
    subst h1
    exact ⟨rfl, rfl, rfl, rfl⟩

theorem invalid_routine_trace_ignored_witness :
    invalidRtnTrace.rtnValid = false ∧ invalidRtnTrace.bbls ≠ [] ∧
    Trace (initState 16 true) invalidRtnTrace = .ok (initState 16 true) ∧
    Trace sampleCounted invalidRtnTrace = .ok sampleCounted :=
  ⟨rfl, by decide,
    (invalid_routine_trace_ignored (initState 16 true) invalidRtnTrace rfl).1,
    (invalid_routine_trace_ignored sampleCounted invalidRtnTrace rfl).1⟩

end BblLengthMix
